import Mathlib

set_option autoImplicit false

/-!
Verification of the nightshift SQLite-backed FUSE filesystem core.

The Rust sources are embedded shallowly: machine integers become `Nat`
(with explicit wrapping where a Rust release-mode overflow can occur),
`Vec<u8>` becomes `List Nat`, fallible paths return `Except`, and each
SQL statement becomes an explicit operation on a record of table rows.
Rust panics (from `expect`, arithmetic overflow in checked builds, or
out-of-bounds slicing) are modelled by a dedicated failure constructor.
-/

namespace Nightshift

/-- `BLOCK_SIZE` from queries/block.rs: 128 KiB. -/
def BLOCK_SIZE : Nat := 128 * 1024

/-- `BUFFER_SIZE` from driver/handle.rs: 2 MiB write-buffer capacity. -/
def BUFFER_SIZE : Nat := 2 * 1024 * 1024

/-- `POSIX_BLOCK_SIZE` from driver/attr.rs. -/
def POSIX_BLOCK_SIZE : Nat := 512

/-! POSIX `S_IFMT` file-type masks (values of the libc constants on Linux). -/

def S_IFMT : Nat := 0o170000
def S_IFSOCK : Nat := 0o140000
def S_IFLNK : Nat := 0o120000
def S_IFREG : Nat := 0o100000
def S_IFBLK : Nat := 0o060000
def S_IFDIR : Nat := 0o040000
def S_IFCHR : Nat := 0o020000
def S_IFIFO : Nat := 0o010000

/-! Linux errno values used by errors.rs via libc. -/

def ENOENT : Nat := 2
def EEXIST : Nat := 17
def EINVAL : Nat := 22
def ENOTEMPTY : Nat := 39
def EOVERFLOW : Nat := 75
def ENOTSUP : Nat := 95

/-- `FileType` from types.rs with its stable numeric encoding 1..7. -/
inductive FileType where
  | namedPipe
  | charDevice
  | blockDevice
  | directory
  | regularFile
  | symlink
  | socket
deriving DecidableEq, Repr

/-- `FileType::from_mode` from types.rs: matches `mode & S_IFMT` against
five masks (REG, CHR, BLK, FIFO, SOCK) and returns `None` otherwise. -/
def FileType.fromMode (mode : Nat) : Option FileType :=
  let m := mode &&& S_IFMT
  if m = S_IFREG then some .regularFile
  else if m = S_IFCHR then some .charDevice
  else if m = S_IFBLK then some .blockDevice
  else if m = S_IFIFO then some .namedPipe
  else if m = S_IFSOCK then some .socket
  else none

/-! ## Block (queries/block.rs) -/

/-- `Block` from queries/block.rs: an uncompressed block of file bytes. -/
structure Block where
  ino : Nat
  bno : Nat
  data : List Nat
deriving DecidableEq, Repr

/-- `Block::empty`. -/
def Block.empty (ino bno : Nat) : Block := ⟨ino, bno, []⟩

/-- `Block::offset_to_bno`. -/
def Block.offsetToBno (offset : Nat) : Nat := offset / BLOCK_SIZE

/-- `Block::start_offset`. -/
def Block.startOffset (b : Block) : Nat := b.bno * BLOCK_SIZE

/-- `Block::end_offset`. -/
def Block.endOffset (b : Block) : Nat := (b.bno + 1) * BLOCK_SIZE

/-- `Block::available`: `BLOCK_SIZE - data.len()` as u64 arithmetic.  The
source converts the difference to u32 with a panicking `try_from`; that
panic is reachable only with `data.len() > BLOCK_SIZE`, which no caller
produces (`consume` is called on data of length < BLOCK_SIZE), so the
truncated `Nat` subtraction is an exact model on all reachable inputs. -/
def Block.available (b : Block) : Nat := BLOCK_SIZE - b.data.length

/-- `Vec::resize(n, 0)`: truncate to `n` elements or pad with zeros up to
`n` elements, so the result has length exactly `n`. -/
def listResize (l : List Nat) (n : Nat) : List Nat :=
  l.take n ++ List.replicate (n - l.length) 0

/-- `Block::consume`: append at most `available` bytes of `src`, returning
the updated block and the number of bytes written. -/
def Block.consume (b : Block) (src : List Nat) : Block × Nat :=
  let maxWrite := min b.available src.length
  ({ b with data := b.data ++ src.take maxWrite }, maxWrite)

/-- `Block::write_at`: `data.resize(rel_offset, 0)` followed by `consume`;
returns the block, the byte count written and the signed length change. -/
def Block.writeAt (b : Block) (inodeOffset : Nat) (src : List Nat) :
    Block × Nat × Int :=
  let startLen := b.data.length
  let rel := inodeOffset - b.startOffset
  let resized : Block := { b with data := listResize b.data rel }
  let step := resized.consume src
  (step.1, step.2, (step.1.data.length : Int) - (startLen : Int))

/-- `Block::copy_into`: `rel_offset` is a saturating subtraction; the source
then computes `self.data.len() - rel_offset` (usize) and slices
`self.data[rel_offset..][..max_write]`.  When `rel_offset > data.len()` the
subtraction underflows and the slice is out of bounds, a panic in every
build profile; that is the `none` result.  Otherwise the copied bytes are
appended to `dest`, which has fixed capacity `destCap`. -/
def Block.copyInto? (b : Block) (dest : List Nat) (destCap : Nat)
    (offset : Nat) : Option (List Nat × Nat) :=
  let rel := offset - b.startOffset
  let remaining := destCap - dest.length
  if rel ≤ b.data.length then
    let maxWrite := min remaining (b.data.length - rel)
    some (dest ++ (b.data.drop rel).take maxWrite, maxWrite)
  else
    none

/-- `Block::truncate`: keep the bytes strictly before
`inode_offset - start_offset`. -/
def Block.truncate (b : Block) (inodeOffset : Nat) : Block :=
  { b with data := b.data.take (inodeOffset - b.startOffset) }

/-! ## Compression (queries/block.rs) -/

/-- `Compression` from queries/block.rs. -/
inductive Compression where
  | none
  | lz4
  | zstd
deriving DecidableEq, Repr

/-- The `repr(u8)` discriminant of a `Compression` value. -/
def Compression.tag : Compression → Nat
  | .none => 0
  | .lz4 => 1
  | .zstd => 2

/-- Modelled from the spec: the external lz4_flex crate (not part of this
repository) provides LZ4 block compression; per the spec only its codec
contract — decoding inverts encoding, with the decoded size returned —
reaches this code.  The coding itself is modelled as the identity. -/
def lz4Encode (d : List Nat) : List Nat := d

/-- Modelled from the spec: inverse of `lz4Encode` (external crate). -/
def lz4Decode (d : List Nat) : List Nat := d

/-- Modelled from the spec: the external zstd crate's streaming
default-level encoder (not part of this repository); only the codec
contract reaches this code, so the coding is modelled as the identity. -/
def zstdEncode (d : List Nat) : List Nat := d

/-- Modelled from the spec: inverse of `zstdEncode` (external crate). -/
def zstdDecode (d : List Nat) : List Nat := d

/-- `CompressedBlock` from queries/block.rs: the row-boundary image of a
block, data always compressed. -/
structure CompressedBlock where
  ino : Nat
  bno : Nat
  compression : Compression
  data : List Nat
deriving DecidableEq, Repr

/-- `CompressedBlock::compress`: the scratch vector is cleared first, so its
net content is exactly the encoder output. `none` copies the bytes, `lz4`
encodes into a maximum-output-size buffer and truncates to the written
count, `zstd` appends the streaming encoder's output to the cleared
scratch. -/
def CompressedBlock.compress (b : Block) (c : Compression) : CompressedBlock :=
  let out :=
    match c with
    | .none => b.data
    | .lz4 => lz4Encode b.data
    | .zstd => zstdEncode b.data
  ⟨b.ino, b.bno, c, out⟩

/-- `CompressedBlock::decompress`.
`none`: `to_owned` then a no-op `truncate(len)`.
`lz4`: `decompress_into` a `BLOCK_SIZE` zero buffer — a panic (`expect`)
when the decoded output exceeds the buffer, else truncate to the decoded
length.
`zstd`: `copy_decode(self.data, &mut buf)` — `Vec`'s `Write` instance
APPENDS the decoded bytes after the `BLOCK_SIZE` zeros that `buf` was
initialised with, and `buf.truncate(buf.len())` removes nothing, so the
result keeps the zero prefix. -/
def CompressedBlock.decompress (cb : CompressedBlock) : Option Block :=
  match cb.compression with
  | .none => some ⟨cb.ino, cb.bno, cb.data⟩
  | .lz4 =>
    let out := lz4Decode cb.data
    if out.length ≤ BLOCK_SIZE then some ⟨cb.ino, cb.bno, out⟩ else none
  | .zstd =>
    some ⟨cb.ino, cb.bno, List.replicate BLOCK_SIZE 0 ++ zstdDecode cb.data⟩

/-! ## Errors (errors.rs) and failure modes -/

/-- `Error` from errors.rs.  The `invalidCompression` variant is referenced
by queries/block.rs and listed in the spec's error table (spec section 7);
the errors.rs revision under src/ omits it, so it is modelled from the
spec there. -/
inductive Error where
  | notEmpty
  | notFound
  | invalidArgument
  | overflow
  | invalidCompression
  | other (msg : String)
deriving DecidableEq, Repr

/-- `Error::errno` from errors.rs: the fixed errno mapping.  Per the spec's
error table, `invalidCompression` surfaces as the catch-all `ENOTSUP`. -/
def Error.errno : Error → Nat
  | .notEmpty => ENOTEMPTY
  | .notFound => ENOENT
  | .invalidArgument => EINVAL
  | .overflow => EOVERFLOW
  | .invalidCompression => ENOTSUP
  | .other _ => ENOTSUP

/-- A failure of a Rust call: either a returned `Error` (propagated with
`?`) or a panic (`expect`, checked overflow, out-of-bounds slicing). -/
inductive Fail where
  | err (e : Error)
  | panicked (msg : String)
deriving DecidableEq, Repr

def sliceOutOfRangeMsg : String := "slice index out of range"

def uniqueBlockMsg : String := "UNIQUE constraint failed: block.ino, block.bno"

def uniqueDirEntryMsg : String :=
  "UNIQUE constraint failed: dir_entry.parent_ino, dir_entry.name"

def decompressFailedMsg : String := "lz4 decompress output too small"

def fuelExhaustedMsg : String := "loop fuel exhausted"

/-- `(x as i64)` for a u64 value held as a `Nat`. -/
def i64OfU64 (n : Nat) : Int :=
  if n < 2 ^ 63 then (n : Int) else (n : Int) - 2 ^ 64

/-- `(x as u64)` for an i64 value held as an `Int`. -/
def u64OfI64 (i : Int) : Nat := (i % 2 ^ 64).toNat

/-- Wrapping u64 subtraction `a.wrapping_sub(b)` — the release-profile
behaviour of `a - b` on u64 operands below `2^64`. -/
def wrapSub64 (a b : Nat) : Nat := (a + 2 ^ 64 - b) % 2 ^ 64

/-- `u64::div_ceil`. -/
def divCeil (a b : Nat) : Nat := (a + b - 1) / b

/-! ## Table rows and database state

The schema itself (queries/sql/schema.sql) is not under src/; its
constraints — `UNIQUE(parent_ino, name)` on dir_entry, `PRIMARY KEY
(ino, bno)` on block, and the `ON DELETE CASCADE` foreign keys from inode
to dir_entry and block — are modelled from the spec's bit-exact schema
(spec section 6). -/

/-- A row of the `inode` table.  `kind` is stored as its 1..7 encoding; the
readers panic on any other byte, so the column is modelled at the enum
type directly. -/
structure InodeRow where
  ino : Nat
  size : Nat
  blocks : Nat
  atimeSecs : Nat
  atimeNanos : Nat
  mtimeSecs : Nat
  mtimeNanos : Nat
  ctimeSecs : Nat
  ctimeNanos : Nat
  crtimeSecs : Nat
  crtimeNanos : Nat
  kind : FileType
  perm : Nat
  nlink : Nat
  uid : Nat
  gid : Nat
  rdev : Nat
  blksize : Nat
  flags : Nat
deriving DecidableEq, Repr

/-- A row of the `dir_entry` table; `name` is an opaque byte string. -/
structure DirEntryRow where
  parentIno : Nat
  name : List Nat
  ino : Nat
deriving DecidableEq, Repr

/-- A row of the `block` table: payload bytes (possibly compressed) and the
nullable compression tag column. -/
structure BlockRow where
  ino : Nat
  bno : Nat
  data : List Nat
  compression : Option Nat
deriving DecidableEq, Repr

/-- The three persistent tables. -/
structure DB where
  inodes : List InodeRow
  dirEntries : List DirEntryRow
  blocks : List BlockRow
deriving DecidableEq, Repr

/-! ## Query layer (queries/inode.rs, queries/dir_entry.rs,
queries/block.rs) -/

/-- `TryFrom<Option<u8>> for Compression` from queries/block.rs:
`None | Some(1)` decode to LZ4, `Some(0)` to none, `Some(2)` to Zstd, and
anything else is `InvalidCompression`. -/
def tryFromColumn (v : Option Nat) : Except Fail Compression :=
  match v with
  | Option.none => .ok .lz4
  | some 0 => .ok .none
  | some 1 => .ok .lz4
  | some 2 => .ok .zstd
  | some _ => .error (.err .invalidCompression)

/-- `inode::lookup`: single-row SELECT by primary key; `query_row` with no
matching row is `QueryReturnedNoRows`, mapped to `NotFound`. -/
def inodeLookup (db : DB) (ino : Nat) : Except Fail InodeRow :=
  match db.inodes.find? (fun r => decide (r.ino = ino)) with
  | some r => .ok r
  | Option.none => .error (.err .notFound)

/-- The closed set of column names passed to `inode::set_attr` by the
driver. -/
inductive InodeField where
  | perm
  | uid
  | gid
  | size
  | atimeSecs
  | atimeNanos
  | mtimeSecs
  | mtimeNanos
  | ctimeSecs
  | ctimeNanos
  | crtimeSecs
  | crtimeNanos
  | flags
  | nlink
  | blocks
deriving DecidableEq, Repr

/-- Write one column of an inode row. -/
def InodeRow.setField (r : InodeRow) (f : InodeField) (v : Nat) : InodeRow :=
  match f with
  | .perm => { r with perm := v }
  | .uid => { r with uid := v }
  | .gid => { r with gid := v }
  | .size => { r with size := v }
  | .atimeSecs => { r with atimeSecs := v }
  | .atimeNanos => { r with atimeNanos := v }
  | .mtimeSecs => { r with mtimeSecs := v }
  | .mtimeNanos => { r with mtimeNanos := v }
  | .ctimeSecs => { r with ctimeSecs := v }
  | .ctimeNanos => { r with ctimeNanos := v }
  | .crtimeSecs => { r with crtimeSecs := v }
  | .crtimeNanos => { r with crtimeNanos := v }
  | .flags => { r with flags := v }
  | .nlink => { r with nlink := v }
  | .blocks => { r with blocks := v }

/-- `inode::set_attr`: dynamic single-column UPDATE by primary key; zero
affected rows is `NotFound`. -/
def inodeSetAttr (db : DB) (ino : Nat) (f : InodeField) (v : Nat) :
    Except Fail DB :=
  if db.inodes.any (fun r => decide (r.ino = ino)) then
    .ok { db with
      inodes := db.inodes.map
        (fun r => if r.ino = ino then r.setField f v else r) }
  else
    .error (.err .notFound)

/-- `inode::remove`: DELETE by primary key (zero affected rows is
`NotFound`) together with the schema's `ON DELETE CASCADE` actions on
dir_entry (both foreign keys) and block — modelled from the spec's
schema. -/
def inodeRemove (db : DB) (ino : Nat) : Except Fail DB :=
  if db.inodes.any (fun r => decide (r.ino = ino)) then
    .ok { inodes := db.inodes.filter (fun r => decide (r.ino ≠ ino)),
          dirEntries := db.dirEntries.filter
            (fun e => decide (e.parentIno ≠ ino ∧ e.ino ≠ ino)),
          blocks := db.blocks.filter (fun b => decide (b.ino ≠ ino)) }
  else
    .error (.err .notFound)

/-- `dir_entry::lookup`: SELECT `ino` by `(parent_ino, name)`; absence is
`NotFound`. -/
def dirEntryLookup (db : DB) (parent : Nat) (name : List Nat) :
    Except Fail Nat :=
  match db.dirEntries.find?
      (fun e => decide (e.parentIno = parent ∧ e.name = name)) with
  | some e => .ok e.ino
  | Option.none => .error (.err .notFound)

/-- `dir_entry::remove`: DELETE by `(parent_ino, name)`; zero affected rows
is `NotFound`. -/
def dirEntryRemove (db : DB) (parent : Nat) (name : List Nat) :
    Except Fail DB :=
  if db.dirEntries.any
      (fun e => decide (e.parentIno = parent ∧ e.name = name)) then
    .ok { db with
      dirEntries := db.dirEntries.filter
        (fun e => decide (¬(e.parentIno = parent ∧ e.name = name))) }
  else
    .error (.err .notFound)

/-- `dir_entry::rename`: `UPDATE dir_entry SET parent_ino = ?, name = ?
WHERE parent_ino = ? AND name = ?`.  With no matching row the statement
affects nothing and succeeds.  When a row matches and a DIFFERENT row
already carries `(new_parent, new_name)`, the update violates the
spec-modelled `UNIQUE(parent_ino, name)` constraint: SQLite aborts the
statement, rusqlite returns a non-`QueryReturnedNoRows` error, and
errors.rs wraps it as `Error::Other`. -/
def dirEntryRename (db : DB) (parent : Nat) (name : List Nat)
    (newParent : Nat) (newName : List Nat) : Except Fail DB :=
  if db.dirEntries.any
      (fun e => decide (e.parentIno = parent ∧ e.name = name)) then
    if db.dirEntries.any
        (fun e => decide (¬(e.parentIno = parent ∧ e.name = name)
          ∧ e.parentIno = newParent ∧ e.name = newName)) then
      .error (.err (.other uniqueDirEntryMsg))
    else
      .ok { db with
        dirEntries := db.dirEntries.map
          (fun e =>
            if e.parentIno = parent ∧ e.name = name then
              { e with parentIno := newParent, name := newName }
            else e) }
  else
    .ok db

/-- Insertion into a bno-sorted row list (helper for the `ORDER BY bno` of
block queries). -/
def insertByBno (r : BlockRow) : List BlockRow → List BlockRow
  | [] => [r]
  | x :: xs => if r.bno ≤ x.bno then r :: x :: xs else x :: insertByBno r xs

/-- Sort block rows by `bno` ascending (`ORDER BY bno`). -/
def sortByBno : List BlockRow → List BlockRow
  | [] => []
  | x :: xs => insertByBno x (sortByBno xs)

/-- The row set `SELECT ... FROM block WHERE ino = ? AND bno >= ? ORDER BY
bno` iterated by `iter_blocks_from`. -/
def selectBlocksFrom (db : DB) (ino bno : Nat) : List BlockRow :=
  sortByBno (db.blocks.filter (fun r => decide (r.ino = ino ∧ bno ≤ r.bno)))

/-- `block::get_block`: SELECT the row for `(ino, bno)`, decode its
compression tag and decompress (a decode failure there is a panic via
`expect`). -/
def blockGet (db : DB) (ino bno : Nat) : Except Fail Block :=
  match db.blocks.find? (fun r => decide (r.ino = ino ∧ r.bno = bno)) with
  | Option.none => .error (.err .notFound)
  | some r =>
    match tryFromColumn r.compression with
    | .error e => .error e
    | .ok c =>
      match (CompressedBlock.mk ino bno c r.data).decompress with
      | some b => .ok b
      | Option.none => .error (.panicked decompressFailedMsg)

/-- `block::update`: compress and UPDATE `data`, `compression` for the
block's `(ino, bno)`. -/
def blockUpdate (db : DB) (b : Block) (c : Compression) : DB :=
  let cb := CompressedBlock.compress b c
  { db with
    blocks := db.blocks.map
      (fun r =>
        if r.ino = b.ino ∧ r.bno = b.bno then
          { r with data := cb.data, compression := some c.tag }
        else r) }

/-- `block::create`: build a fresh block at `offset_to_bno(offset)`,
`consume` the data, compress and INSERT.  An existing row at the same
`(ino, bno)` violates the spec-modelled primary key and aborts the
INSERT with a constraint error. -/
def blockCreate (db : DB) (ino offset : Nat) (data : List Nat)
    (c : Compression) : Except Fail (DB × Nat) :=
  let bno := Block.offsetToBno offset
  let step := (Block.empty ino bno).consume data
  let cb := CompressedBlock.compress step.1 c
  if db.blocks.any (fun r => decide (r.ino = ino ∧ r.bno = bno)) then
    .error (.err (.other uniqueBlockMsg))
  else
    .ok ({ db with
      blocks := db.blocks ++ [⟨ino, bno, cb.data, some c.tag⟩] }, step.2)

/-- `block::remove_blocks_from`: DELETE WHERE `ino = ?` AND `bno >= ?`. -/
def blockRemoveFrom (db : DB) (ino bno : Nat) : DB :=
  { db with
    blocks := db.blocks.filter
      (fun r => decide (¬(r.ino = ino ∧ bno ≤ r.bno))) }

/-! ## File handles (driver/handle.rs) -/

def assertFailedMsg : String := "assertion failed"

/-- `FileHandle` from driver/handle.rs.  The buffer is a `Vec` with fixed
capacity `BUFFER_SIZE` (`consume_input` never grows it past capacity, so
the capacity stays 2 MiB); `flags` is the raw open-flag word. -/
structure FileHandle where
  ino : Nat
  size : Nat
  flags : Nat
  writeOffset : Nat
  buf : List Nat
  compression : Compression
deriving DecidableEq, Repr

/-- `FileHandle::buffer_remaining`: capacity minus length. -/
def FileHandle.bufferRemaining (h : FileHandle) : Nat :=
  BUFFER_SIZE - h.buf.length

/-- `FileHandle::buffer_empty`. -/
def FileHandle.bufferEmpty (h : FileHandle) : Bool := h.buf.isEmpty

/-- `FileHandle::write_offset()`: the observable write offset
`write_offset + buf.len()`. -/
def FileHandle.currentWriteOffset (h : FileHandle) : Nat :=
  h.writeOffset + h.buf.length

/-- `FileHandle::seek_to`.  The source asserts the buffer is empty; both
callers flush immediately before seeking, so the assertion cannot fire. -/
def FileHandle.seekTo (h : FileHandle) (offset : Nat) : FileHandle :=
  { h with writeOffset := offset }

/-- `FileHandle::consume_input`: absorb
`min(len(src), buffer_remaining)` bytes. -/
def FileHandle.consumeInput (h : FileHandle) (src : List Nat) :
    FileHandle × Nat :=
  let write := min src.length h.bufferRemaining
  ({ h with buf := h.buf ++ src.take write }, write)

/-- The decompression step of `iter_blocks_from`'s row decoding: a failed
decompression is a panic (`expect` in the source). -/
def decompressB (ino bno : Nat) (c : Compression) (data : List Nat) :
    Except Fail Block :=
  match (CompressedBlock.mk ino bno c data).decompress with
  | some b => .ok b
  | Option.none => .error (.panicked decompressFailedMsg)

/-- `Block::copy_into` at the driver boundary: the out-of-bounds case is a
panic. -/
def copyIntoB (b : Block) (buf : List Nat) (cap offset : Nat) :
    Except Fail (List Nat × Nat) :=
  match b.copyInto? buf cap offset with
  | some s => .ok s
  | Option.none => .error (.panicked sliceOutOfRangeMsg)

/-- The closure of `FileHandle::flush`'s `iter_blocks_from` call: each
SELECTed row is decoded and handed to `Block::write_at`; the written bytes
are dropped from the pending data, the cursor advances, the inode size is
adjusted by `size_delta` through an `i64` round-trip, blocks with
`written > 0` are queued for UPDATE, and iteration stops once the data is
exhausted.  NOTE (faithful to the source): iter_blocks_from never reads the
row's own `bno` column — every yielded block is labelled with the starting
block number (`row.get(0)` is never called), which this model reproduces
via `startBno`. -/
def flushIterLoop (startBno ino : Nat) (rows : List BlockRow)
    (offset : Nat) (data : List Nat) (size : Nat) (modified : List Block) :
    Except Fail (Nat × List Nat × Nat × List Block) :=
  match rows with
  | [] => .ok (offset, data, size, modified)
  | r :: rest =>
    Except.bind (tryFromColumn r.compression) (fun c =>
    Except.bind (decompressB ino startBno c r.data) (fun blk =>
      let step := blk.writeAt offset data
      let data' := data.drop step.2.1
      let offset' := offset + step.2.1
      let size' := u64OfI64 (i64OfU64 size + step.2.2)
      let modified' :=
        if step.2.1 > 0 then modified ++ [step.1] else modified
      if data'.isEmpty then .ok (offset', data', size', modified')
      else flushIterLoop startBno ino rest offset' data' size' modified'))

/-- The `while !data.is_empty()` loop of `FileHandle::flush` creating fresh
blocks.  `fuel` bounds the iteration count for structural recursion; each
round consumes at least one byte, so `fuel = data.length` rounds always
suffice and the fuel-exhausted branch is unreachable from `flush`. -/
def flushCreateLoopF (fuel : Nat) (db : DB) (ino offset : Nat)
    (data : List Nat) (size : Nat) (c : Compression) :
    Except Fail (DB × Nat × Nat) :=
  match data with
  | [] => .ok (db, offset, size)
  | d :: ds =>
    match fuel with
    | 0 => .error (.panicked fuelExhaustedMsg)
    | fuel' + 1 =>
      match blockCreate db ino offset (d :: ds) c with
      | .error e => .error e
      | .ok (db', written) =>
        flushCreateLoopF fuel' db' ino (offset + written)
          ((d :: ds).drop written) (size + written) c

/-- `FileHandle::flush` from driver/handle.rs: no-op on an empty buffer;
otherwise read the inode, overwrite existing blocks from the cursor
forward, UPDATE the modified ones, create fresh blocks for the remainder,
persist `size` and `blocks = size.div_ceil(blksize)`, clear the buffer and
advance the cursor. -/
def FileHandle.flush (h : FileHandle) (db : DB) :
    Except Fail (FileHandle × DB) :=
  if h.buf.isEmpty then .ok (h, db)
  else
    match inodeLookup db h.ino with
    | .error e => .error e
    | .ok attr =>
      let startBno := Block.offsetToBno h.writeOffset
      let rows := selectBlocksFrom db h.ino startBno
      match flushIterLoop startBno h.ino rows h.writeOffset h.buf attr.size
          [] with
      | .error e => .error e
      | .ok (newOffset, data, size, modified) =>
        let db1 := modified.foldl
          (fun d b => blockUpdate d b h.compression) db
        match flushCreateLoopF data.length db1 h.ino newOffset data size
            h.compression with
        | .error e => .error e
        | .ok (db2, newOffset2, size2) =>
          match inodeSetAttr db2 h.ino .size size2 with
          | .error e => .error e
          | .ok db3 =>
            match inodeSetAttr db3 h.ino .blocks
                (divCeil size2 attr.blksize) with
            | .error e => .error e
            | .ok db4 =>
              .ok ({ h with
                buf := [], writeOffset := newOffset2, size := size2 }, db4)

/-! ## Driver request handlers (driver/mod.rs)

Each `with_read_tx`/`with_write_tx` scope (the transaction gateway lives in
a revision outside src/ and is modelled from the spec) commits the returned
state on success and leaves the state untouched on error, which is exactly
the `Except Fail DB` state-passing below. -/

/-- `FuseDriver` state: the database, the handle slab and the mount-wide
compression choice.  `Slab::insert` returns the lowest free slot; the
claims only exercise drivers that never released a handle, where that slot
is the list length. -/
structure DriverState where
  db : DB
  handles : List FileHandle
  compression : Compression
deriving DecidableEq, Repr

/-- `open_impl`: look up the inode size and allocate a fresh handle. -/
def openImpl (st : DriverState) (ino : Nat) (flags : Nat) :
    Except Fail (DriverState × Nat) :=
  match inodeLookup st.db ino with
  | .error e => .error e
  | .ok attr =>
    .ok ({ st with
      handles := st.handles
        ++ [⟨ino, attr.size, flags, 0, [], st.compression⟩] },
      st.handles.length)

/-- `unlink_impl`: resolve the entry, decrement `nlink` (a u32 wrapping
decrement in release builds); persist it and DELETE the entry while links
remain, otherwise DELETE the inode and let the cascade drop its entries
and blocks. -/
def unlinkImpl (db : DB) (parent : Nat) (name : List Nat) :
    Except Fail DB :=
  match dirEntryLookup db parent name with
  | .error e => .error e
  | .ok ino =>
    match inodeLookup db ino with
    | .error e => .error e
    | .ok attr =>
      let nlink' := (attr.nlink + (2 ^ 32 - 1)) % 2 ^ 32
      if nlink' > 0 then
        match inodeSetAttr db ino .nlink nlink' with
        | .error e => .error e
        | .ok db1 => dirEntryRemove db1 parent name
      else
        inodeRemove db ino

/-- `rename_impl`: delegates to `dir_entry::rename` in one write
transaction. -/
def renameImpl (db : DB) (parent : Nat) (name : List Nat) (newParent : Nat)
    (newName : List Nat) : Except Fail DB :=
  dirEntryRename db parent name newParent newName

/-- `set_attr` on an optional driver argument: skipped when absent. -/
def setAttrOpt (db : DB) (ino : Nat) (f : InodeField) (v : Option Nat) :
    Except Fail DB :=
  match v with
  | Option.none => .ok db
  | some x => inodeSetAttr db ino f x

/-- A `(secs, nanos)` pair written through two `set_attr` calls when
present. -/
def setTimeOpt (db : DB) (ino : Nat) (fs fn : InodeField)
    (v : Option (Nat × Nat)) : Except Fail DB :=
  match v with
  | Option.none => .ok db
  | some x =>
    match inodeSetAttr db ino fs x.1 with
    | .error e => .error e
    | .ok db1 => inodeSetAttr db1 ino fn x.2

/-- The `size` branch of `setattr_impl`: remove blocks strictly past the
new last block, truncate the block at the new last bno when it exists
(absence is ignored, other errors propagate), then persist the size. -/
def setattrSize (db : DB) (ino : Nat) (v : Option Nat) (c : Compression) :
    Except Fail DB :=
  match v with
  | Option.none => .ok db
  | some size =>
    let bno := Block.offsetToBno size
    let db1 := blockRemoveFrom db ino (bno + 1)
    match blockGet db1 ino bno with
    | .ok block => inodeSetAttr (blockUpdate db1 (block.truncate size) c)
        ino .size size
    | .error (.err .notFound) => inodeSetAttr db1 ino .size size
    | .error e => .error e

/-- `setattr_impl` from driver/mod.rs: apply each present field in source
order and re-lookup the inode. -/
def setattrImpl (db : DB) (ino : Nat) (mode uid gid : Option Nat)
    (size : Option Nat) (atime mtime ctime crtime : Option (Nat × Nat))
    (flags : Option Nat) (c : Compression) :
    Except Fail (DB × InodeRow) :=
  match setAttrOpt db ino .perm mode with
  | .error e => .error e
  | .ok db1 =>
    match setAttrOpt db1 ino .uid uid with
    | .error e => .error e
    | .ok db2 =>
      match setAttrOpt db2 ino .gid gid with
      | .error e => .error e
      | .ok db3 =>
        match setattrSize db3 ino size c with
        | .error e => .error e
        | .ok db4 =>
          match setTimeOpt db4 ino .atimeSecs .atimeNanos atime with
          | .error e => .error e
          | .ok db5 =>
            match setTimeOpt db5 ino .mtimeSecs .mtimeNanos mtime with
            | .error e => .error e
            | .ok db6 =>
              match setTimeOpt db6 ino .ctimeSecs .ctimeNanos ctime with
              | .error e => .error e
              | .ok db7 =>
                match setTimeOpt db7 ino .crtimeSecs .crtimeNanos crtime with
                | .error e => .error e
                | .ok db8 =>
                  match setAttrOpt db8 ino .flags flags with
                  | .error e => .error e
                  | .ok db9 =>
                    match inodeLookup db9 ino with
                    | .error e => .error e
                    | .ok attr => .ok (db9, attr)

/-- The read loop of `read_impl`: each SELECTed row is decoded (labelled
with the starting bno, as in `iter_blocks_from`) and `copy_into`ed; the
iteration continues while the buffer is below capacity. -/
def readLoop (startBno ino : Nat) (rows : List BlockRow) (offset cap : Nat)
    (buf : List Nat) : Except Fail (List Nat) :=
  match rows with
  | [] => .ok buf
  | r :: rest =>
    Except.bind (tryFromColumn r.compression) (fun c =>
    Except.bind (decompressB ino startBno c r.data) (fun blk =>
    Except.bind (copyIntoB blk buf cap offset) (fun step =>
      if step.1.length < cap then
        readLoop startBno ino rest offset cap step.1
      else .ok step.1)))

/-- `read_impl` from driver/mod.rs: flush a dirty handle buffer first, then
compute `remaining = attr.size - offset` (u64 arithmetic — wrapping in
release builds, modelled by `wrapSub64`), cap the allocation at
`min(size, remaining)` and stream blocks from `offset` through
`copy_into`.  The final `assert!(buf.len() <= size)` is modelled as a
panic when violated. -/
def readImpl (st : DriverState) (ino fh : Nat) (offset size : Nat) :
    Except Fail (DriverState × List Nat) :=
  match st.handles.get? fh with
  | Option.none => .error (.err .notFound)
  | some h =>
    Except.bind
      (if h.bufferEmpty then .ok (h, st.db) else h.flush st.db)
      (fun hdb =>
        let st1 : DriverState :=
          { st with db := hdb.2, handles := st.handles.set fh hdb.1 }
        Except.bind (inodeLookup hdb.2 ino) (fun attr =>
          let remaining := wrapSub64 attr.size offset
          let cap := min size remaining
          let startBno := Block.offsetToBno offset
          Except.bind
            (readLoop startBno ino (selectBlocksFrom hdb.2 ino startBno)
              offset cap [])
            (fun buf =>
              if buf.length ≤ size then .ok (st1, buf)
              else .error (.panicked assertFailedMsg))))

/-- The `while !data.is_empty()` loop of `write_impl`: flush when the
buffer is full, then absorb input.  `fuel` bounds the rounds for
structural recursion; every round absorbs at least one byte (the buffer
has free space after a flush), so `fuel = data.length` suffices. -/
def writeLoopF (fuel : Nat) (db : DB) (h : FileHandle) (data : List Nat) :
    Except Fail (DB × FileHandle) :=
  match data with
  | [] => .ok (db, h)
  | d :: ds =>
    match fuel with
    | 0 => .error (.panicked fuelExhaustedMsg)
    | fuel' + 1 =>
      if h.bufferRemaining = 0 then
        match h.flush db with
        | .error e => .error e
        | .ok (h1, db1) =>
          let step := h1.consumeInput (d :: ds)
          writeLoopF fuel' db1 step.1 ((d :: ds).drop step.2)
      else
        let step := h.consumeInput (d :: ds)
        writeLoopF fuel' db step.1 ((d :: ds).drop step.2)

/-- `write_impl` from driver/mod.rs: detect a seek (observed offset differs
from the requested one), flushing and repositioning if so; then run the
buffered write loop.  Returns the full byte count as u32. -/
def writeImpl (st : DriverState) (ino fh : Nat) (offset : Nat)
    (data : List Nat) : Except Fail (DriverState × Nat) :=
  match st.handles.get? fh with
  | Option.none => .error (.err .notFound)
  | some h =>
    match (if h.currentWriteOffset = offset then .ok (h, st.db)
      else
        match h.flush st.db with
        | .error e => .error e
        | .ok (h1, db1) => .ok (h1.seekTo offset, db1) :
        Except Fail (FileHandle × DB)) with
    | .error e => .error e
    | .ok (h2, db2) =>
      match writeLoopF data.length db2 h2 data with
      | .error e => .error e
      | .ok (db3, h3) =>
        .ok ({ st with db := db3, handles := st.handles.set fh h3 },
          data.length % 2 ^ 32)

instance {α β : Type} [DecidableEq α] [DecidableEq β] :
    DecidableEq (Except α β) := fun a b =>
  match a, b with
  | .ok x, .ok y =>
    if h : x = y then .isTrue (by rw [h]) else .isFalse (by simp [h])
  | .error x, .error y =>
    if h : x = y then .isTrue (by rw [h]) else .isFalse (by simp [h])
  | .ok _, .error _ => .isFalse (by simp)
  | .error _, .ok _ => .isFalse (by simp)

/-! ## Canonical file layouts and concrete fixtures -/

/-- The `k`-th `BLOCK_SIZE` chunk of a file content `F`. -/
def fileChunk (F : List Nat) (k : Nat) : List Nat :=
  (F.drop (k * BLOCK_SIZE)).take BLOCK_SIZE

/-- Number of populated blocks of a dense file holding `F`. -/
def numBlocks (F : List Nat) : Nat := divCeil F.length BLOCK_SIZE

/-- The block-table rows of a dense file: row `k` holds chunk `k` of `F`
compressed with `c`, tagged with `c`'s discriminant, for
`k < ceil(len(F) / BLOCK_SIZE)`. -/
def canonicalRows (ino : Nat) (F : List Nat) (c : Compression) :
    List BlockRow :=
  (List.range (numBlocks F)).map
    (fun k =>
      ⟨ino, k, (CompressedBlock.compress ⟨ino, k, fileChunk F k⟩ c).data,
        some c.tag⟩)

/-- The rows appended by the block-creating loop of `flush`: chunks of `d`
at consecutive block numbers starting at `q`. -/
def newRows (ino q : Nat) (d : List Nat) (c : Compression) :
    List BlockRow :=
  (List.range (divCeil d.length BLOCK_SIZE)).map
    (fun j =>
      ⟨ino, q + j,
        (CompressedBlock.compress
          ⟨ino, q + j, (d.drop (j * BLOCK_SIZE)).take BLOCK_SIZE⟩ c).data,
        some c.tag⟩)

/-- The row update `flush` issues for the partially filled last block of a
dense file `F` when appending `buf`: the matching `(ino, bno)` row receives
the recompressed chunk extended by the absorbed prefix of `buf`. -/
def lastBlockUpd (i : Nat) (F buf : List Nat) (c : Compression) :
    BlockRow → BlockRow :=
  fun rr =>
    if rr.ino = i ∧ rr.bno = F.length / BLOCK_SIZE then
      { rr with
        data := (CompressedBlock.compress
          ⟨i, F.length / BLOCK_SIZE,
            fileChunk F (F.length / BLOCK_SIZE)
              ++ buf.take (min (BLOCK_SIZE - F.length % BLOCK_SIZE)
                  buf.length)⟩ c).data,
        compression := some c.tag }
    else rr

/-- A compression choice whose decompression inverts compression on
payloads that fit a block.  Holds for `none` and `lz4`; the Zstd path
violates it (see the C4 theorem). -/
def RoundTrip (c : Compression) : Prop :=
  ∀ (ino bno : Nat) (d : List Nat), d.length ≤ BLOCK_SIZE →
    (CompressedBlock.mk ino bno c
        (CompressedBlock.compress ⟨ino, bno, d⟩ c).data).decompress
      = some ⟨ino, bno, d⟩

/-- Fixture: a regular-file inode row with the given ino, size and nlink,
`blksize = 512` and zeroed times, used to instantiate theorems at concrete
states. -/
def sampleInode (ino size nlink : Nat) : InodeRow :=
  ⟨ino, size, 0, 0, 0, 0, 0, 0, 0, 0, 0, .regularFile, 0o644, nlink, 0, 0,
    0, 512, 0⟩

/-! ## Theorems about FileType, Block and the compression boundary -/

/-- Length of a `Vec::resize(n, 0)` result is exactly `n`. -/
theorem listResize_length (l : List Nat) (n : Nat) :
    (listResize l n).length = n := by
  simp [listResize]
  omega

/-- C9 counterexample: a directory mode (here `S_IFDIR | 0o755`) is an
enumerated kind per the claim, yet `from_mode` returns `None` for it. -/
theorem fromMode_directory_counterexample :
    0o040755 &&& S_IFMT = S_IFDIR ∧
      FileType.fromMode 0o040755 ≠ some FileType.directory := by
  decide

/-- C9 (amended): `from_mode` maps the `S_IFMT` masks of the five mknod-able
kinds (RegularFile, CharDevice, BlockDevice, NamedPipe, Socket) to the
corresponding enumeration value, and returns `None` for every other mask,
including `S_IFDIR` (Directory) and `S_IFLNK` (Symlink). -/
theorem fromMode_cases (mode : Nat) :
    (mode &&& S_IFMT = S_IFREG → FileType.fromMode mode = some .regularFile) ∧
    (mode &&& S_IFMT = S_IFCHR → FileType.fromMode mode = some .charDevice) ∧
    (mode &&& S_IFMT = S_IFBLK → FileType.fromMode mode = some .blockDevice) ∧
    (mode &&& S_IFMT = S_IFIFO → FileType.fromMode mode = some .namedPipe) ∧
    (mode &&& S_IFMT = S_IFSOCK → FileType.fromMode mode = some .socket) ∧
    (mode &&& S_IFMT = S_IFDIR → FileType.fromMode mode = Option.none) ∧
    (mode &&& S_IFMT = S_IFLNK → FileType.fromMode mode = Option.none) ∧
    (mode &&& S_IFMT ∉ [S_IFREG, S_IFCHR, S_IFBLK, S_IFIFO, S_IFSOCK] →
      FileType.fromMode mode = Option.none) := by
  refine ⟨?_, ?_, ?_, ?_, ?_, ?_, ?_, ?_⟩ <;> intro h <;>
    simp_all [FileType.fromMode, S_IFMT, S_IFREG, S_IFCHR, S_IFBLK, S_IFIFO,
      S_IFSOCK, S_IFDIR, S_IFLNK]

/-- C9 witness: a concrete regular-file mode resolves to RegularFile. -/
theorem fromMode_cases_witness :
    FileType.fromMode 0o100644 = some FileType.regularFile :=
  (fromMode_cases 0o100644).1 (by decide)

/-- C3 counterexample: on a block holding ten bytes, `write_at` at the block
start with a three-byte source SHORTENS the block — the seven tail bytes are
discarded (`Vec::resize(rel_offset, 0)` truncates) and `size_delta` is
negative — contradicting the claim that tail bytes are preserved and the
delta is never negative. -/
theorem writeAt_truncates_counterexample :
    ((Block.mk 0 0 (List.replicate 10 1)).writeAt 0 [2, 2, 2]).1.data
        = [2, 2, 2] ∧
      ((Block.mk 0 0 (List.replicate 10 1)).writeAt 0 [2, 2, 2]).2.2 = -7 := by
  constructor <;> decide

/-- Computation lemma for `write_at`: the resulting data. -/
theorem writeAt_data (b : Block) (off : Nat) (src : List Nat) :
    (b.writeAt off src).1.data
      = listResize b.data (off - b.startOffset)
        ++ src.take (min (BLOCK_SIZE - (off - b.startOffset)) src.length) := by
  simp only [Block.writeAt, Block.consume, Block.available,
    listResize_length]

theorem writeAt_written (b : Block) (off : Nat) (src : List Nat) :
    (b.writeAt off src).2.1
      = min (BLOCK_SIZE - (off - b.startOffset)) src.length := by
  simp only [Block.writeAt, Block.consume, Block.available,
    listResize_length]

theorem writeAt_diff (b : Block) (off : Nat) (src : List Nat) :
    (b.writeAt off src).2.2
      = ((off - b.startOffset : Nat) : Int)
          + ((min (BLOCK_SIZE - (off - b.startOffset)) src.length : Nat) : Int)
          - (b.data.length : Int) := by
  rw [show (b.writeAt off src).2.2
      = ((b.writeAt off src).1.data.length : Int) - (b.data.length : Int)
    from rfl]
  rw [writeAt_data, List.length_append, listResize_length, List.length_take]
  have hmin : min (min (BLOCK_SIZE - (off - b.startOffset)) src.length)
      src.length = min (BLOCK_SIZE - (off - b.startOffset)) src.length := by
    generalize BLOCK_SIZE - (off - b.startOffset) = f
    omega
  rw [hmin, Nat.cast_add]

/-- C3 (amended): for `absolute_offset` in `[start_offset, end_offset)` with
`rel = absolute_offset - start_offset`, `write_at` first resizes the data to
exactly `rel` bytes — truncating when `rel` is below the current length,
zero-padding when above — then appends `min(BLOCK_SIZE - rel, len(src))`
bytes of `src`; the returned `size_delta` is `(rel + written) - old_len`,
negative exactly when `rel + written` falls short of the old length. -/
theorem writeAt_spec (b : Block) (off : Nat) (src : List Nat)
    (h1 : b.startOffset ≤ off) (h2 : off < b.endOffset) :
    (b.writeAt off src).1.data
        = (b.data.take (off - b.startOffset)
            ++ List.replicate (off - b.startOffset - b.data.length) 0)
          ++ src.take (min (BLOCK_SIZE - (off - b.startOffset)) src.length) ∧
      (b.writeAt off src).2.1
        = min (BLOCK_SIZE - (off - b.startOffset)) src.length ∧
      (b.writeAt off src).2.2
        = ((off - b.startOffset : Nat) : Int)
            + ((min (BLOCK_SIZE - (off - b.startOffset)) src.length : Nat) : Int)
            - (b.data.length : Int) ∧
      ((b.writeAt off src).2.2 < 0 ↔
        off - b.startOffset
            + min (BLOCK_SIZE - (off - b.startOffset)) src.length
          < b.data.length) := by
  refine ⟨?_, writeAt_written b off src, writeAt_diff b off src, ?_⟩
  · rw [writeAt_data]
    simp only [listResize]
  · rw [writeAt_diff]
    omega

/-- C3 witness: `writeAt_spec` applied at a concrete shortening call; the
resulting size delta is negative. -/
theorem writeAt_spec_witness :
    ((Block.mk 0 0 [1, 2, 3]).writeAt 1 [9]).2.2 = -1 := by
  have h := writeAt_spec ⟨0, 0, [1, 2, 3]⟩ 1 [9] (by decide) (by decide)
  rw [h.2.2.1]
  decide

/-- C4 failing input: compressing the one-byte block `[42]` with Zstd and
decompressing returns the 128 KiB zero prefix followed by the original
byte, not the original byte string — `copy_decode` appends to the
pre-filled buffer and `buf.truncate(buf.len())` removes nothing. -/
theorem zstd_roundtrip_failure :
    (CompressedBlock.compress ⟨1, 0, [42]⟩ .zstd).decompress
        = some ⟨1, 0, List.replicate BLOCK_SIZE 0 ++ [42]⟩ ∧
      (List.replicate BLOCK_SIZE 0 ++ [42] : List Nat) ≠ [42] := by
  constructor
  · simp only [CompressedBlock.compress, CompressedBlock.decompress,
      zstdEncode, zstdDecode]
  · intro h
    have := congrArg List.length h
    rw [List.length_append, List.length_replicate] at this
    simp only [List.length_cons, List.length_nil, BLOCK_SIZE] at this
    omega

/-! ## Query-layer lemmas -/

theorem find?_pred {α : Type} (p : α → Bool) (l : List α) (a : α)
    (h : l.find? p = some a) : p a = true := by
  induction l with
  | nil => simp at h
  | cons x xs ih =>
    rw [List.find?_cons] at h
    cases hx : p x with
    | true =>
      rw [hx] at h
      simp at h
      rw [← h]
      exact hx
    | false =>
      rw [hx] at h
      simp at h
      exact ih h

theorem inodeLookup_any (db : DB) (ino : Nat) (attr : InodeRow)
    (h : inodeLookup db ino = .ok attr) :
    db.inodes.any (fun r => decide (r.ino = ino)) = true := by
  unfold inodeLookup at h
  cases hf : db.inodes.find? (fun r => decide (r.ino = ino)) with
  | none => rw [hf] at h; cases h
  | some r =>
    rw [List.any_eq_true]
    exact ⟨r, List.mem_of_find?_eq_some hf,
      find?_pred (fun r => decide (r.ino = ino)) db.inodes r hf⟩

theorem dirEntryLookup_any (db : DB) (parent : Nat) (name : List Nat)
    (ino : Nat) (h : dirEntryLookup db parent name = .ok ino) :
    db.dirEntries.any
        (fun e => decide (e.parentIno = parent ∧ e.name = name)) = true := by
  unfold dirEntryLookup at h
  cases hf : db.dirEntries.find?
      (fun e => decide (e.parentIno = parent ∧ e.name = name)) with
  | none => rw [hf] at h; cases h
  | some e =>
    rw [List.any_eq_true]
    exact ⟨e, List.mem_of_find?_eq_some hf,
      find?_pred (fun e => decide (e.parentIno = parent ∧ e.name = name))
        db.dirEntries e hf⟩

/-! ## C10 — rename with a missing source row -/

/-- C10: when no dir_entry row matches `(parent, name)`, the UPDATE behind
`dir_entry::rename` affects zero rows, so the call succeeds and leaves the
database unchanged — it never reports NotFound. -/
theorem rename_missing_source (db : DB) (parent newParent : Nat)
    (name newName : List Nat)
    (h : ∀ e ∈ db.dirEntries, ¬(e.parentIno = parent ∧ e.name = name)) :
    dirEntryRename db parent name newParent newName = .ok db := by
  have hany : db.dirEntries.any
      (fun e => decide (e.parentIno = parent ∧ e.name = name)) = false := by
    rw [List.any_eq_false]
    intro e he
    simpa using h e he
  unfold dirEntryRename
  rw [hany]
  rfl

/-- C10 witness: a concrete rename of an absent name succeeds and keeps
the single unrelated entry. -/
theorem rename_missing_source_witness :
    dirEntryRename (DB.mk [] [⟨1, [97], 5⟩] []) 2 [98] 1 [99]
      = .ok (DB.mk [] [⟨1, [97], 5⟩] []) :=
  rename_missing_source (DB.mk [] [⟨1, [97], 5⟩] []) 2 1 [98] [99]
    (by decide)

/-! ## C6 — rename onto an existing destination -/

/-- C6 counterexample: with entries `a` and `b` under parent 1, renaming
`a` onto `b` fails, but with `Error::Other` (the unique-constraint message)
mapped to errno `ENOTSUP = 95` — not with an `AlreadyExists` error mapped
to `EEXIST = 17`; errors.rs has no `AlreadyExists` variant at all. -/
theorem rename_dest_exists_counterexample :
    renameImpl (DB.mk [] [⟨1, [97], 2⟩, ⟨1, [98], 3⟩] []) 1 [97] 1 [98]
        = .error (.err (.other uniqueDirEntryMsg)) ∧
      (Error.other uniqueDirEntryMsg).errno = 95 ∧
      EEXIST = 17 ∧ ENOTSUP = 95 := by
  refine ⟨by decide, by decide, by decide, by decide⟩

/-- C6 (amended): when a row matches `(parent, name)` and a different row
already carries `(new_parent, new_name)`, the UPDATE violates the
`UNIQUE(parent_ino, name)` constraint; rusqlite surfaces a
non-`QueryReturnedNoRows` error, errors.rs wraps it as `Error::Other`,
and the kernel boundary maps it to `ENOTSUP` — not `EEXIST`. -/
theorem rename_dest_exists (db : DB) (parent newParent : Nat)
    (name newName : List Nat)
    (hsrc : ∃ e ∈ db.dirEntries, e.parentIno = parent ∧ e.name = name)
    (hdst : ∃ e ∈ db.dirEntries, ¬(e.parentIno = parent ∧ e.name = name)
      ∧ e.parentIno = newParent ∧ e.name = newName) :
    renameImpl db parent name newParent newName
        = .error (.err (.other uniqueDirEntryMsg)) ∧
      (Error.other uniqueDirEntryMsg).errno = ENOTSUP ∧ ENOTSUP ≠ EEXIST := by
  have h1 : db.dirEntries.any
      (fun e => decide (e.parentIno = parent ∧ e.name = name)) = true := by
    rw [List.any_eq_true]
    obtain ⟨e, he, hp⟩ := hsrc
    exact ⟨e, he, by simp only [decide_eq_true_eq]; exact hp⟩
  have h2 : db.dirEntries.any
      (fun e => decide (¬(e.parentIno = parent ∧ e.name = name)
        ∧ e.parentIno = newParent ∧ e.name = newName)) = true := by
    rw [List.any_eq_true]
    obtain ⟨e, he, hp⟩ := hdst
    exact ⟨e, he, by simp only [decide_eq_true_eq]; exact hp⟩
  refine ⟨?_, rfl, by decide⟩
  unfold renameImpl dirEntryRename
  rw [h1, h2]
  rfl

/-- C6 witness: `rename_dest_exists` at the two-entry database. -/
theorem rename_dest_exists_witness :
    renameImpl (DB.mk [] [⟨1, [97], 2⟩, ⟨1, [99], 3⟩] []) 1 [97] 1 [99]
        = .error (.err (.other uniqueDirEntryMsg)) ∧
      (Error.other uniqueDirEntryMsg).errno = ENOTSUP ∧ ENOTSUP ≠ EEXIST :=
  rename_dest_exists (DB.mk [] [⟨1, [97], 2⟩, ⟨1, [99], 3⟩] []) 1 1 [97]
    [99] ⟨⟨1, [97], 2⟩, by decide, by decide⟩
    ⟨⟨1, [99], 3⟩, by decide, by decide⟩

/-! ## C7 — unlink -/

/-- C7: `unlink(parent, name)` resolving to inode `i` with link count
`n ≥ 1` (below the u32 wrap bound): when `n - 1 > 0`, the new nlink is
persisted on the one inode row and exactly the named dir_entry row is
removed, blocks untouched; when `n = 1`, the inode row is removed and the
cascade leaves no dir_entry row referencing `i` (as child or as parent)
and no block row of `i`. -/
theorem unlink_spec (db : DB) (parent ino : Nat) (name : List Nat)
    (attr : InodeRow)
    (hlook : dirEntryLookup db parent name = .ok ino)
    (hattr : inodeLookup db ino = .ok attr)
    (h1 : 1 ≤ attr.nlink) (h2 : attr.nlink < 2 ^ 32) :
    (1 < attr.nlink →
      unlinkImpl db parent name
        = .ok (DB.mk
            (db.inodes.map
              (fun r => if r.ino = ino then
                r.setField .nlink (attr.nlink - 1) else r))
            (db.dirEntries.filter
              (fun e => decide (¬(e.parentIno = parent ∧ e.name = name))))
            db.blocks)) ∧
    (attr.nlink = 1 →
      unlinkImpl db parent name
        = .ok (DB.mk
            (db.inodes.filter (fun r => decide (r.ino ≠ ino)))
            (db.dirEntries.filter
              (fun e => decide (e.parentIno ≠ ino ∧ e.ino ≠ ino)))
            (db.blocks.filter (fun b => decide (b.ino ≠ ino))))) := by
  have hdec : (attr.nlink + (2 ^ 32 - 1)) % 2 ^ 32 = attr.nlink - 1 := by
    omega
  have hany := inodeLookup_any db ino attr hattr
  have hanyd := dirEntryLookup_any db parent name ino hlook
  constructor
  · intro hgt
    have hpos : 0 < attr.nlink - 1 := by omega
    have hset : inodeSetAttr db ino .nlink (attr.nlink - 1)
        = .ok { db with
            inodes := db.inodes.map
              (fun r => if r.ino = ino then
                r.setField .nlink (attr.nlink - 1) else r) } := by
      unfold inodeSetAttr
      rw [hany]
      rfl
    simp only [unlinkImpl, hlook, hattr, hdec]
    rw [if_pos hpos, hset]
    simp only [dirEntryRemove]
    rw [hanyd]
    rfl
  · intro hone
    have hz : ¬ 0 < attr.nlink - 1 := by omega
    simp only [unlinkImpl, hlook, hattr, hdec]
    rw [if_neg hz]
    unfold inodeRemove
    rw [hany]
    rfl

/-- C7 witness: unlinking the last link of inode 5 removes its inode row,
its entry and its block. -/
theorem unlink_spec_witness :
    unlinkImpl (DB.mk [sampleInode 5 0 1] [⟨1, [97], 5⟩]
        [⟨5, 0, [1], some 0⟩]) 1 [97]
      = .ok (DB.mk [] [] []) := by
  have h := unlink_spec (DB.mk [sampleInode 5 0 1] [⟨1, [97], 5⟩]
      [⟨5, 0, [1], some 0⟩]) 1 5 [97] (sampleInode 5 0 1)
    (by decide) (by decide) (by decide) (by decide)
  rw [h.2 (by decide)]
  decide

/-! ## Round-trip codecs -/

/-- The `none` codec is a memcpy both ways, so it round-trips. -/
theorem roundTrip_none : RoundTrip .none := by
  intro ino bno d hd
  rfl

/-- The LZ4 path round-trips for payloads that fit a block: the decoded
output passes the `BLOCK_SIZE` buffer bound, and the buffer is truncated
to the decoded length. -/
theorem roundTrip_lz4 : RoundTrip .lz4 := by
  intro ino bno d hd
  simp [CompressedBlock.compress, CompressedBlock.decompress, lz4Encode,
    lz4Decode, hd]

/-! ## C5 — read beyond end of file -/

/-- C5 failing input: inode 3 stores 10 bytes in one block; a read at
offset 20 (past the stored size, but landing in the existing block's
number) drives `remaining = size - offset` into a u64 underflow and
`copy_into` into `data.len() - rel_offset` underflow plus an
out-of-bounds slice — a panic, not the empty buffer the claim promises. -/
theorem read_beyond_eof_panics :
    readImpl
        (DriverState.mk
          (DB.mk [sampleInode 3 10 1] []
            [⟨3, 0, [0, 1, 2, 3, 4, 5, 6, 7, 8, 9], some 0⟩])
          [⟨3, 10, 0, 0, [], .none⟩] .none)
        3 0 20 5
      = .error (.panicked sliceOutOfRangeMsg) := by
  decide

/-! ## C1 — write/read round-trip across compression choices -/

theorem except_bind_ok {α β : Type} (a : α) (f : α → Except Fail β) :
    Except.bind (Except.ok a : Except Fail α) f = f a := rfl

/-- Evaluation rule for `readLoop` over a single row that fills the
buffer. -/
theorem readLoop_one (s i : Nat) (r : BlockRow) (off cap : Nat)
    (buf0 : List Nat) (c : Compression) (blk : Block)
    (step : List Nat × Nat)
    (hc : tryFromColumn r.compression = .ok c)
    (hd : decompressB i s c r.data = .ok blk)
    (hcopy : copyIntoB blk buf0 cap off = .ok step)
    (hstop : ¬ step.1.length < cap) :
    readLoop s i [r] off cap buf0 = .ok step.1 := by
  rw [readLoop]
  simp only [hc, except_bind_ok, hd, hcopy]
  rw [if_neg hstop]

/-- Evaluation rule for `read_impl` from the results of its internal
steps. -/
theorem readImpl_eval (st : DriverState) (ino fh offset size : Nat)
    (h : FileHandle) (hdb : FileHandle × DB) (attr : InodeRow)
    (buf : List Nat)
    (hget : st.handles.get? fh = some h)
    (hflush : (if h.bufferEmpty then Except.ok (h, st.db)
      else h.flush st.db) = .ok hdb)
    (hattr : inodeLookup hdb.2 ino = .ok attr)
    (hloop : readLoop (Block.offsetToBno offset) ino
        (selectBlocksFrom hdb.2 ino (Block.offsetToBno offset)) offset
        (min size (wrapSub64 attr.size offset)) [] = .ok buf)
    (hle : buf.length ≤ size) :
    readImpl st ino fh offset size
      = .ok ({ st with db := hdb.2, handles := st.handles.set fh hdb.1 },
          buf) := by
  rw [readImpl, hget]
  simp only [hflush, except_bind_ok, hattr, hloop]
  rw [if_pos hle]

/-- C1 failing input: on a fresh regular file opened with one handle under
the Zstd compression choice, `write(ino, fh, 0, [42])` succeeds
(buffering the byte), and `read(ino, fh, 0, 1)` on the same handle
flushes and returns `[0]` — the first byte of the 128 KiB zero prefix
that the Zstd decompression bug prepends — not the written byte string
`[42]`. -/
theorem zstd_write_read_corruption :
    openImpl (DriverState.mk (DB.mk [sampleInode 2 0 1] [] []) [] .zstd) 2 0
        = .ok (DriverState.mk (DB.mk [sampleInode 2 0 1] [] [])
            [⟨2, 0, 0, 0, [], .zstd⟩] .zstd, 0) ∧
      writeImpl (DriverState.mk (DB.mk [sampleInode 2 0 1] [] [])
          [⟨2, 0, 0, 0, [], .zstd⟩] .zstd) 2 0 0 [42]
        = .ok (DriverState.mk (DB.mk [sampleInode 2 0 1] [] [])
            [⟨2, 0, 0, 0, [42], .zstd⟩] .zstd, 1) ∧
      readImpl (DriverState.mk (DB.mk [sampleInode 2 0 1] [] [])
          [⟨2, 0, 0, 0, [42], .zstd⟩] .zstd) 2 0 0 1
        = .ok (DriverState.mk
            (DB.mk [⟨2, 1, 1, 0, 0, 0, 0, 0, 0, 0, 0, .regularFile, 0o644,
              1, 0, 0, 0, 512, 0⟩] [] [⟨2, 0, [42], some 2⟩])
            [⟨2, 1, 0, 1, [], .zstd⟩] .zstd, [0]) ∧
      ([0] : List Nat) ≠ [42] := by
  have hlen : (List.replicate BLOCK_SIZE 0 ++ [42] : List Nat).length
      = BLOCK_SIZE + 1 := by
    rw [List.length_append, List.length_replicate]
    rfl
  have htake : (List.replicate BLOCK_SIZE 0 ++ [42] : List Nat).take 1
      = [0] := by
    rw [List.take_append_eq_append_take, List.take_replicate,
      List.length_replicate]
    norm_num [BLOCK_SIZE]
  have hcond : 0 - (Block.mk 2 0
        (List.replicate BLOCK_SIZE 0 ++ [42])).startOffset
      ≤ (Block.mk 2 0 (List.replicate BLOCK_SIZE 0 ++ [42])).data.length := by
    rw [Nat.zero_sub]
    exact Nat.zero_le _
  have hcopy0 : (Block.mk 2 0
        (List.replicate BLOCK_SIZE 0 ++ [42])).copyInto? [] 1 0
      = some ([0], 1) := by
    unfold Block.copyInto?
    rw [if_pos hcond]
    rw [show (Block.mk 2 0 (List.replicate BLOCK_SIZE 0 ++ [42])).data
      = List.replicate BLOCK_SIZE 0 ++ [42] from rfl]
    rw [show (Block.mk 2 0
        (List.replicate BLOCK_SIZE 0 ++ [42])).startOffset = 0 from rfl]
    rw [hlen, Nat.zero_sub, Nat.sub_zero]
    simp only [List.length_nil, Nat.sub_zero, List.drop_zero]
    rw [show min 1 (BLOCK_SIZE + 1) = 1 from by norm_num [BLOCK_SIZE]]
    rw [htake, List.nil_append]
  have hcb : copyIntoB (Block.mk 2 0 (List.replicate BLOCK_SIZE 0 ++ [42]))
      [] 1 0 = .ok ([0], 1) := by
    rw [copyIntoB, hcopy0]
  have hd : decompressB 2 0 .zstd [42]
      = .ok (Block.mk 2 0 (List.replicate BLOCK_SIZE 0 ++ [42])) := by
    rw [decompressB]
    rw [show (CompressedBlock.mk 2 0 .zstd [42]).decompress
      = some (Block.mk 2 0 (List.replicate BLOCK_SIZE 0 ++ [42]))
      from rfl]
  have hloop1 : readLoop 0 2 [⟨2, 0, [42], some 2⟩] 0 1 [] = .ok [0] :=
    readLoop_one 0 2 ⟨2, 0, [42], some 2⟩ 0 1 [] .zstd
      (Block.mk 2 0 (List.replicate BLOCK_SIZE 0 ++ [42])) ([0], 1)
      (by decide) hd hcb (by decide)
  have hloop2 : readLoop (Block.offsetToBno 0) 2
      (selectBlocksFrom
        (DB.mk [⟨2, 1, 1, 0, 0, 0, 0, 0, 0, 0, 0, .regularFile, 0o644, 1,
          0, 0, 0, 512, 0⟩] [] [⟨2, 0, [42], some 2⟩]) 2
        (Block.offsetToBno 0)) 0
      (min 1 (wrapSub64 (⟨2, 1, 1, 0, 0, 0, 0, 0, 0, 0, 0, .regularFile,
          0o644, 1, 0, 0, 0, 512, 0⟩ : InodeRow).size 0)) [] = .ok [0] := by
    rw [show Block.offsetToBno 0 = 0 from rfl]
    rw [show selectBlocksFrom
        (DB.mk [⟨2, 1, 1, 0, 0, 0, 0, 0, 0, 0, 0, .regularFile, 0o644, 1,
          0, 0, 0, 512, 0⟩] [] [⟨2, 0, [42], some 2⟩]) 2 0
      = [⟨2, 0, [42], some 2⟩] from by decide]
    rw [show min 1 (wrapSub64 (⟨2, 1, 1, 0, 0, 0, 0, 0, 0, 0, 0,
        .regularFile, 0o644, 1, 0, 0, 0, 512, 0⟩ : InodeRow).size 0)
      = 1 from by decide]
    exact hloop1
  refine ⟨by decide, by decide, ?_, by decide⟩
  exact readImpl_eval
    (DriverState.mk (DB.mk [sampleInode 2 0 1] [] [])
      [⟨2, 0, 0, 0, [42], .zstd⟩] .zstd) 2 0 0 1
    ⟨2, 0, 0, 0, [42], .zstd⟩
    (⟨2, 1, 0, 1, [], .zstd⟩,
      DB.mk [⟨2, 1, 1, 0, 0, 0, 0, 0, 0, 0, 0, .regularFile, 0o644, 1, 0,
        0, 0, 512, 0⟩] [] [⟨2, 0, [42], some 2⟩])
    ⟨2, 1, 1, 0, 0, 0, 0, 0, 0, 0, 0, .regularFile, 0o644, 1, 0, 0, 0,
      512, 0⟩ [0]
    (by decide) (by decide) (by decide) hloop2 (by decide)

/-! ## C8 — setattr(size=N) -/

theorem setField_ino (r : InodeRow) (f : InodeField) (v : Nat) :
    (r.setField f v).ino = r.ino := by
  cases f <;> rfl

theorem setField_size_size (r : InodeRow) (v : Nat) :
    (r.setField .size v).size = v := rfl

theorem find?_filter_of_imp {α : Type} (p q : α → Bool) (l : List α)
    (h : ∀ x, p x = true → q x = true) :
    (l.filter q).find? p = l.find? p := by
  induction l with
  | nil => rfl
  | cons x xs ih =>
    rw [List.filter_cons]
    cases hq : q x with
    | true =>
      simp only [if_pos rfl, List.find?_cons]
      exact congrArg (cond (p x) (some x)) ih
    | false =>
      simp only [Bool.false_eq_true, if_neg]
      rw [List.find?_cons]
      cases hp : p x with
      | true => exact absurd (h x hp) (by rw [hq]; decide)
      | false => exact ih

theorem find?_map_setField (l : List InodeRow) (ino : Nat)
    (attr : InodeRow) (f : InodeField) (v : Nat)
    (h : l.find? (fun r => decide (r.ino = ino)) = some attr) :
    (l.map (fun r => if r.ino = ino then r.setField f v else r)).find?
        (fun r => decide (r.ino = ino)) = some (attr.setField f v) := by
  induction l with
  | nil => simp at h
  | cons x xs ih =>
    rw [List.find?_cons] at h
    rw [List.map_cons, List.find?_cons]
    cases hx : decide (x.ino = ino) with
    | true =>
      rw [hx] at h
      simp only [cond_true] at h
      have hxi : x.ino = ino := of_decide_eq_true hx
      rw [if_pos hxi]
      have : decide ((x.setField f v).ino = ino) = true := by
        rw [setField_ino]
        exact hx
      rw [this]
      simp only [cond_true]
      rw [show attr = x from (Option.some.injEq _ _).mp h.symm]
    | false =>
      rw [hx] at h
      simp only [cond_false] at h
      have hxi : ¬ x.ino = ino := of_decide_eq_false hx
      rw [if_neg hxi, hx]
      simp only [cond_false]
      exact ih h

theorem inodeLookup_map_setField (db : DB) (ino : Nat) (attr : InodeRow)
    (f : InodeField) (v : Nat) (newDirs : List DirEntryRow)
    (newBlocks : List BlockRow)
    (h : inodeLookup db ino = .ok attr) :
    inodeLookup
        (DB.mk (db.inodes.map
          (fun r => if r.ino = ino then r.setField f v else r))
          newDirs newBlocks) ino
      = .ok (attr.setField f v) := by
  unfold inodeLookup at h ⊢
  cases hf : db.inodes.find? (fun r => decide (r.ino = ino)) with
  | none => rw [hf] at h; cases h
  | some r =>
    rw [hf] at h
    have : r = attr := by
      cases h
      rfl
    subst this
    rw [show (DB.mk (db.inodes.map
        (fun r => if r.ino = ino then r.setField f v else r))
        newDirs newBlocks).inodes
      = db.inodes.map (fun r => if r.ino = ino then r.setField f v else r)
      from rfl]
    rw [find?_map_setField db.inodes ino r f v hf]

/-- C8: `setattr(ino, size = N)` removes every block row of `ino` with
`bno > offset_to_bno(N)`; when a row exists at `bno = offset_to_bno(N)`
(and decodes), its decompressed data is truncated to end at byte `N`
(`take (N - bno·BLOCK_SIZE)`) and re-stored compressed; the inode row's
`size` column becomes `N`, and the returned (re-looked-up) attributes —
what a subsequent `getattr` reports — carry `size = N`. -/
theorem setattr_size_spec (db : DB) (ino N : Nat) (c : Compression)
    (attr : InodeRow)
    (hattr : inodeLookup db ino = .ok attr) :
    (db.blocks.find?
        (fun r => decide (r.ino = ino ∧ r.bno = Block.offsetToBno N))
      = Option.none →
      setattrImpl db ino Option.none Option.none Option.none (some N)
          Option.none Option.none Option.none Option.none Option.none c
        = .ok (DB.mk
            (db.inodes.map
              (fun r => if r.ino = ino then r.setField .size N else r))
            db.dirEntries
            (db.blocks.filter (fun r =>
              decide (¬(r.ino = ino ∧ Block.offsetToBno N + 1 ≤ r.bno)))),
          attr.setField .size N)) ∧
    (∀ (r0 : BlockRow) (c0 : Compression) (blk : Block),
      db.blocks.find?
          (fun r => decide (r.ino = ino ∧ r.bno = Block.offsetToBno N))
        = some r0 →
      tryFromColumn r0.compression = .ok c0 →
      (CompressedBlock.mk ino (Block.offsetToBno N) c0 r0.data).decompress
        = some blk →
      setattrImpl db ino Option.none Option.none Option.none (some N)
          Option.none Option.none Option.none Option.none Option.none c
        = .ok (DB.mk
            (db.inodes.map
              (fun r => if r.ino = ino then r.setField .size N else r))
            db.dirEntries
            ((db.blocks.filter (fun r =>
              decide (¬(r.ino = ino ∧ Block.offsetToBno N + 1 ≤ r.bno)))).map
              (fun r =>
                if r.ino = ino ∧ r.bno = Block.offsetToBno N then
                  { r with
                    data := (CompressedBlock.compress (blk.truncate N) c).data,
                    compression := some c.tag }
                else r)),
          attr.setField .size N)) ∧
    (attr.setField .size N).size = N := by
  have hany := inodeLookup_any db ino attr hattr
  have hffilter : (db.blocks.filter (fun r =>
      decide (¬(r.ino = ino ∧ Block.offsetToBno N + 1 ≤ r.bno)))).find?
        (fun r => decide (r.ino = ino ∧ r.bno = Block.offsetToBno N))
      = db.blocks.find?
        (fun r => decide (r.ino = ino ∧ r.bno = Block.offsetToBno N)) := by
    refine find?_filter_of_imp _ _ _ ?_
    intro x hx
    simp only [decide_eq_true_eq] at hx ⊢
    omega
  refine ⟨?_, ?_, rfl⟩
  · intro hnone
    have hbg : blockGet (blockRemoveFrom db ino (Block.offsetToBno N + 1))
        ino (Block.offsetToBno N) = .error (.err .notFound) := by
      unfold blockGet blockRemoveFrom
      rw [hffilter, hnone]
    simp only [setattrImpl, setAttrOpt, setTimeOpt, setattrSize, hbg]
    have hset : inodeSetAttr
        (blockRemoveFrom db ino (Block.offsetToBno N + 1)) ino .size N
        = .ok (DB.mk
            (db.inodes.map
              (fun r => if r.ino = ino then r.setField .size N else r))
            db.dirEntries
            (db.blocks.filter (fun r =>
              decide (¬(r.ino = ino ∧ Block.offsetToBno N + 1 ≤ r.bno))))) := by
      unfold inodeSetAttr blockRemoveFrom
      rw [hany]
      rfl
    rw [hset]
    simp only [inodeLookup_map_setField db ino attr .size N db.dirEntries
      (db.blocks.filter (fun r =>
        decide (¬(r.ino = ino ∧ Block.offsetToBno N + 1 ≤ r.bno)))) hattr]
  · intro r0 c0 blk hfind hc0 hdec
    have hbg : blockGet (blockRemoveFrom db ino (Block.offsetToBno N + 1))
        ino (Block.offsetToBno N) = .ok blk := by
      unfold blockGet blockRemoveFrom
      rw [hffilter, hfind]
      simp only [hc0, hdec]
    simp only [setattrImpl, setAttrOpt, setTimeOpt, setattrSize, hbg]
    have hbi : blk.ino = ino ∧ blk.bno = Block.offsetToBno N := by
      cases hcc : (CompressedBlock.mk ino (Block.offsetToBno N) c0
          r0.data).compression with
      | none =>
        rw [show (CompressedBlock.mk ino (Block.offsetToBno N) c0
          r0.data).compression = c0 from rfl] at hcc
        subst hcc
        cases hdec
        exact ⟨rfl, rfl⟩
      | lz4 =>
        rw [show (CompressedBlock.mk ino (Block.offsetToBno N) c0
          r0.data).compression = c0 from rfl] at hcc
        subst hcc
        unfold CompressedBlock.decompress at hdec
        by_cases hl : (lz4Decode r0.data).length ≤ BLOCK_SIZE
        · rw [if_pos hl] at hdec
          cases hdec
          exact ⟨rfl, rfl⟩
        · rw [if_neg hl] at hdec
          cases hdec
      | zstd =>
        rw [show (CompressedBlock.mk ino (Block.offsetToBno N) c0
          r0.data).compression = c0 from rfl] at hcc
        subst hcc
        cases hdec
        exact ⟨rfl, rfl⟩
    have hupd : blockUpdate
        (blockRemoveFrom db ino (Block.offsetToBno N + 1))
        (blk.truncate N) c
        = DB.mk db.inodes db.dirEntries
          ((db.blocks.filter (fun r =>
            decide (¬(r.ino = ino ∧ Block.offsetToBno N + 1 ≤ r.bno)))).map
            (fun r =>
              if r.ino = ino ∧ r.bno = Block.offsetToBno N then
                { r with
                  data := (CompressedBlock.compress (blk.truncate N) c).data,
                  compression := some c.tag }
              else r)) := by
      unfold blockUpdate blockRemoveFrom
      rw [show (blk.truncate N).ino = blk.ino from rfl,
        show (blk.truncate N).bno = blk.bno from rfl, hbi.1, hbi.2]
    rw [hupd]
    have hset : inodeSetAttr (DB.mk db.inodes db.dirEntries
        ((db.blocks.filter (fun r =>
          decide (¬(r.ino = ino ∧ Block.offsetToBno N + 1 ≤ r.bno)))).map
          (fun r =>
            if r.ino = ino ∧ r.bno = Block.offsetToBno N then
              { r with
                data := (CompressedBlock.compress (blk.truncate N) c).data,
                compression := some c.tag }
            else r))) ino .size N
        = .ok (DB.mk
            (db.inodes.map
              (fun r => if r.ino = ino then r.setField .size N else r))
            db.dirEntries
            ((db.blocks.filter (fun r =>
              decide (¬(r.ino = ino ∧ Block.offsetToBno N + 1 ≤ r.bno)))).map
              (fun r =>
                if r.ino = ino ∧ r.bno = Block.offsetToBno N then
                  { r with
                    data := (CompressedBlock.compress (blk.truncate N) c).data,
                    compression := some c.tag }
                else r))) := by
      unfold inodeSetAttr
      rw [hany]
      rfl
    rw [hset]
    simp only [inodeLookup_map_setField db ino attr .size N db.dirEntries
      ((db.blocks.filter (fun r =>
        decide (¬(r.ino = ino ∧ Block.offsetToBno N + 1 ≤ r.bno)))).map
        (fun r =>
          if r.ino = ino ∧ r.bno = Block.offsetToBno N then
            { r with
              data := (CompressedBlock.compress (blk.truncate N) c).data,
              compression := some c.tag }
          else r)) hattr]

/-- C8 witness: truncating a five-byte file to size 2 keeps the first two
bytes of its block, removes nothing else, and getattr reports size 2. -/
theorem setattr_size_spec_witness :
    setattrImpl (DB.mk [sampleInode 4 5 1] []
        [⟨4, 0, [9, 8, 7, 6, 5], some 0⟩]) 4 Option.none Option.none
        Option.none (some 2) Option.none Option.none Option.none
        Option.none Option.none .none
      = .ok (DB.mk [sampleInode 4 2 1] [] [⟨4, 0, [9, 8], some 0⟩],
          sampleInode 4 2 1) := by
  have h := (setattr_size_spec (DB.mk [sampleInode 4 5 1] []
      [⟨4, 0, [9, 8, 7, 6, 5], some 0⟩]) 4 2 .none (sampleInode 4 5 1)
    (by decide)).2.1 ⟨4, 0, [9, 8, 7, 6, 5], some 0⟩ .none
    ⟨4, 0, [9, 8, 7, 6, 5]⟩ (by decide) (by decide) (by decide)
  rw [h]
  decide

/-! ## C2 — flush: helper lemmas -/

theorem blockSize_pos : 0 < BLOCK_SIZE := by decide

theorem divCeil_mul_add (k m : Nat) :
    divCeil (k * BLOCK_SIZE + m) BLOCK_SIZE = k + divCeil m BLOCK_SIZE := by
  unfold divCeil
  have h1 : k * BLOCK_SIZE + m + BLOCK_SIZE - 1
      = BLOCK_SIZE * k + (m + BLOCK_SIZE - 1) := by
    have := blockSize_pos
    rw [Nat.mul_comm]
    omega
  rw [h1, Nat.mul_add_div blockSize_pos]

theorem divCeil_zero_block : divCeil 0 BLOCK_SIZE = 0 := by decide

theorem divCeil_eq_one (m : Nat) (h1 : 0 < m) (h2 : m ≤ BLOCK_SIZE) :
    divCeil m BLOCK_SIZE = 1 := by
  unfold divCeil
  have := blockSize_pos
  rw [Nat.div_eq_of_lt_le] <;> omega

theorem filter_decide_and {α : Type} (l : List α) (p q : α → Prop)
    [DecidablePred p] [DecidablePred q] :
    l.filter (fun x => decide (p x ∧ q x))
      = (l.filter (fun x => decide (p x))).filter
          (fun x => decide (q x)) := by
  induction l with
  | nil => rfl
  | cons x xs ih =>
    rw [List.filter_cons, List.filter_cons]
    by_cases hp : p x
    · by_cases hq : q x
      · rw [if_pos (by simp [hp, hq]), if_pos (by simp [hp]),
          List.filter_cons, if_pos (by simp [hq]), ih]
      · rw [if_neg (by simp [hp, hq]), if_pos (by simp [hp]),
          List.filter_cons, if_neg (by simp [hq]), ih]
    · rw [if_neg (by simp [hp]), if_neg (by simp [hp]), ih]

theorem filter_map_comm {α : Type} (l : List α) (f : α → α) (p : α → Bool)
    (h : ∀ x, p (f x) = p x) :
    (l.map f).filter p = (l.filter p).map f := by
  induction l with
  | nil => rfl
  | cons x xs ih =>
    rw [List.map_cons, List.filter_cons, List.filter_cons, h x]
    cases hp : p x with
    | true => rw [if_pos rfl, if_pos rfl, List.map_cons, ih]
    | false =>
      rw [if_neg (by simp), if_neg (by simp)]
      exact ih

theorem filter_map_id {α : Type} (l : List α) (f : α → α) (p : α → Bool)
    (h : ∀ x, p x = true → f x = x) :
    (l.filter p).map f = l.filter p := by
  induction l with
  | nil => rfl
  | cons x xs ih =>
    rw [List.filter_cons]
    cases hp : p x with
    | true => rw [if_pos rfl, List.map_cons, h x hp, ih]
    | false =>
      rw [if_neg (by simp)]
      exact ih

theorem filter_eq_self_of_all {α : Type} (l : List α) (p : α → Bool)
    (h : ∀ x ∈ l, p x = true) : l.filter p = l := by
  induction l with
  | nil => rfl
  | cons x xs ih =>
    rw [List.filter_cons, if_pos (h x (List.mem_cons_self x xs))]
    rw [ih (fun y hy => h y (List.mem_cons_of_mem x hy))]

theorem filter_eq_nil_of_all {α : Type} (l : List α) (p : α → Bool)
    (h : ∀ x ∈ l, p x = false) : l.filter p = [] := by
  induction l with
  | nil => rfl
  | cons x xs ih =>
    rw [List.filter_cons, if_neg (by rw [h x (List.mem_cons_self x xs)]; simp)]
    exact ih (fun y hy => h y (List.mem_cons_of_mem x hy))

theorem insertByBno_of_le (r : BlockRow) (l : List BlockRow)
    (h : ∀ x ∈ l, r.bno ≤ x.bno) : insertByBno r l = r :: l := by
  cases l with
  | nil => rfl
  | cons x xs =>
    rw [insertByBno, if_pos (h x (List.mem_cons_self x xs))]

theorem sortByBno_eq_of_pairwise (l : List BlockRow)
    (h : l.Pairwise (fun a b => a.bno ≤ b.bno)) : sortByBno l = l := by
  induction l with
  | nil => rfl
  | cons x xs ih =>
    rw [List.pairwise_cons] at h
    rw [sortByBno, ih h.2, insertByBno_of_le x xs h.1]

theorem tryFromColumn_tag (c : Compression) :
    tryFromColumn (some c.tag) = .ok c := by
  cases c <;> rfl

theorem decompressB_roundtrip (c : Compression) (hrt : RoundTrip c)
    (ino bno : Nat) (d : List Nat) (hd : d.length ≤ BLOCK_SIZE) :
    decompressB ino bno c
        (CompressedBlock.compress ⟨ino, bno, d⟩ c).data
      = .ok ⟨ino, bno, d⟩ := by
  unfold decompressB
  rw [hrt ino bno d hd]

theorem u64_add_small (a b : Nat) (h : a + b < 2 ^ 63) :
    u64OfI64 (i64OfU64 a + (b : Int)) = a + b := by
  unfold u64OfI64 i64OfU64
  rw [if_pos (by omega)]
  have h1 : ((a : Int) + (b : Int)) % (2 ^ 64 : Int) = (a : Int) + b := by
    rw [Int.emod_eq_of_lt (by omega) (by push_cast; omega)]
  rw [h1]
  omega

theorem mem_canonicalRows (i : Nat) (F : List Nat) (c : Compression)
    (rr : BlockRow) (h : rr ∈ canonicalRows i F c) :
    rr.ino = i ∧ rr.bno < numBlocks F := by
  unfold canonicalRows at h
  obtain ⟨k, hk, hrr⟩ := List.mem_map.mp h
  rw [← hrr]
  exact ⟨rfl, List.mem_range.mp hk⟩

theorem canonicalRows_pairwise (i : Nat) (F : List Nat) (c : Compression) :
    (canonicalRows i F c).Pairwise (fun a b => a.bno ≤ b.bno) := by
  unfold canonicalRows
  rw [List.pairwise_map]
  exact (List.pairwise_lt_range (numBlocks F)).imp (fun hab => Nat.le_of_lt hab)

theorem newRows_nil (i q : Nat) (c : Compression) :
    newRows i q [] c = [] := by
  unfold newRows
  rw [show divCeil ([] : List Nat).length BLOCK_SIZE = 0 from by decide]
  rfl

theorem newRows_single (i q : Nat) (d : List Nat) (c : Compression)
    (h1 : 0 < d.length) (h2 : d.length ≤ BLOCK_SIZE) :
    newRows i q d c
      = [⟨i, q, (CompressedBlock.compress ⟨i, q, d⟩ c).data,
          some c.tag⟩] := by
  unfold newRows
  rw [divCeil_eq_one d.length h1 h2]
  rw [show List.range 1 = [0] from by decide]
  rw [List.map_cons, List.map_nil, Nat.add_zero, Nat.zero_mul,
    List.drop_zero, List.take_of_length_le h2]

theorem newRows_step (i q : Nat) (d : List Nat) (c : Compression)
    (h : BLOCK_SIZE ≤ d.length) :
    newRows i q d c
      = ⟨i, q, (CompressedBlock.compress ⟨i, q, d.take BLOCK_SIZE⟩ c).data,
          some c.tag⟩
        :: newRows i (q + 1) (d.drop BLOCK_SIZE) c := by
  unfold newRows
  have hsplit : d.length = 1 * BLOCK_SIZE + (d.length - BLOCK_SIZE) := by
    omega
  rw [hsplit, divCeil_mul_add 1 (d.length - BLOCK_SIZE)]
  rw [List.range_add 1 (divCeil (d.length - BLOCK_SIZE) BLOCK_SIZE)]
  rw [show List.range 1 = [0] from by decide]
  rw [List.map_append, List.map_cons, List.map_nil, List.map_map]
  rw [Nat.add_zero, Nat.zero_mul, List.drop_zero]
  rw [List.cons_append, List.nil_append]
  have hlen : (d.drop BLOCK_SIZE).length = d.length - BLOCK_SIZE :=
    List.length_drop BLOCK_SIZE d
  rw [hlen]
  have hfun : ((fun j =>
        (⟨i, q + j, (CompressedBlock.compress
          ⟨i, q + j, (d.drop (j * BLOCK_SIZE)).take BLOCK_SIZE⟩ c).data,
          some c.tag⟩ : BlockRow)) ∘ (fun x => 1 + x))
      = (fun j =>
        (⟨i, q + 1 + j, (CompressedBlock.compress
          ⟨i, q + 1 + j,
            ((d.drop BLOCK_SIZE).drop (j * BLOCK_SIZE)).take BLOCK_SIZE⟩
          c).data, some c.tag⟩ : BlockRow)) := by
    funext j
    simp only [Function.comp_apply]
    rw [List.drop_drop]
    rw [show q + (1 + j) = q + 1 + j from by omega]
    rw [show (1 + j) * BLOCK_SIZE = BLOCK_SIZE + j * BLOCK_SIZE from by
      ring]
  rw [hfun]

theorem createLoop_nil (fuel : Nat) (db : DB) (i off size : Nat)
    (c : Compression) :
    flushCreateLoopF fuel db i off [] size c = .ok (db, off, size) := by
  cases fuel <;> rfl

/-- Chunking lemma: creating blocks for data `d` at a block-aligned offset
`q·BLOCK_SIZE`, in a table whose rows for `ino = i` all sit strictly below
`q`, appends exactly the canonical new rows and advances offset and size
by the data length. -/
theorem createLoop_spec (i : Nat) (c : Compression) (fuel : Nat) :
    ∀ (d : List Nat), d.length ≤ fuel →
    ∀ (db : DB) (q size : Nat),
    (∀ rr ∈ db.blocks, rr.ino = i → rr.bno < q) →
    flushCreateLoopF fuel db i (q * BLOCK_SIZE) d size c
      = .ok (DB.mk db.inodes db.dirEntries (db.blocks ++ newRows i q d c),
          q * BLOCK_SIZE + d.length, size + d.length) := by
  induction fuel with
  | zero =>
    intro d hd db q size hq
    have hdnil : d = [] := List.eq_nil_of_length_eq_zero (Nat.le_zero.mp hd)
    subst hdnil
    rw [createLoop_nil, newRows_nil, List.append_nil, List.length_nil,
      Nat.add_zero, Nat.add_zero]
  | succ fuel ih =>
    intro d hd db q size hq
    cases d with
    | nil =>
      rw [createLoop_nil, newRows_nil, List.append_nil, List.length_nil,
        Nat.add_zero, Nat.add_zero]
    | cons x xs =>
      have hbno : Block.offsetToBno (q * BLOCK_SIZE) = q := by
        unfold Block.offsetToBno
        exact Nat.mul_div_cancel q blockSize_pos
      have hanyb : db.blocks.any (fun rr =>
          decide (rr.ino = i ∧ rr.bno = q)) = false := by
        rw [List.any_eq_false]
        intro rr hrr
        simp only [decide_eq_true_eq, not_and]
        intro h1 h2
        exact absurd h2 (Nat.ne_of_lt (hq rr hrr h1))
      have hbc : blockCreate db i (q * BLOCK_SIZE) (x :: xs) c
          = .ok (DB.mk db.inodes db.dirEntries (db.blocks
              ++ [⟨i, q, (CompressedBlock.compress
                ⟨i, q, (x :: xs).take (min BLOCK_SIZE (x :: xs).length)⟩
                c).data, some c.tag⟩]),
            min BLOCK_SIZE (x :: xs).length) := by
        simp only [blockCreate, Block.empty, Block.consume, Block.available,
          hbno, List.length_nil, Nat.sub_zero, List.nil_append]
        rw [hanyb]
        rw [if_neg (by decide)]
      rw [flushCreateLoopF]
      simp only [hbc]
      by_cases hlen : (x :: xs).length ≤ BLOCK_SIZE
      · rw [show min BLOCK_SIZE (x :: xs).length = (x :: xs).length from by
          omega]
        rw [List.take_length, List.drop_length, createLoop_nil]
        rw [newRows_single i q (x :: xs) c (by simp) hlen]
      · rw [show min BLOCK_SIZE (x :: xs).length = BLOCK_SIZE from by
          omega]
        rw [show q * BLOCK_SIZE + BLOCK_SIZE = (q + 1) * BLOCK_SIZE from by
          ring]
        have hdlen : ((x :: xs).drop BLOCK_SIZE).length ≤ fuel := by
          rw [List.length_drop]
          have := blockSize_pos
          simp only [List.length_cons] at hd ⊢
          omega
        have hq' : ∀ rr ∈ (DB.mk db.inodes db.dirEntries (db.blocks
            ++ [⟨i, q, (CompressedBlock.compress
              ⟨i, q, (x :: xs).take BLOCK_SIZE⟩ c).data,
              some c.tag⟩])).blocks, rr.ino = i → rr.bno < q + 1 := by
          intro rr hrr hrri
          rcases List.mem_append.mp hrr with hl | hr
          · exact Nat.lt_succ_of_lt (hq rr hl hrri)
          · rw [List.mem_singleton.mp hr]
            exact Nat.lt_succ_self q
        rw [ih ((x :: xs).drop BLOCK_SIZE) hdlen _ (q + 1) (size + BLOCK_SIZE)
          hq']
        rw [newRows_step i q (x :: xs) c (by omega)]
        rw [show (DB.mk db.inodes db.dirEntries (db.blocks
            ++ [⟨i, q, (CompressedBlock.compress
              ⟨i, q, (x :: xs).take BLOCK_SIZE⟩ c).data,
              some c.tag⟩])).blocks
          = db.blocks ++ [⟨i, q, (CompressedBlock.compress
              ⟨i, q, (x :: xs).take BLOCK_SIZE⟩ c).data, some c.tag⟩]
          from rfl]
        rw [List.append_assoc, List.singleton_append]
        have hoff : (q + 1) * BLOCK_SIZE + ((x :: xs).drop BLOCK_SIZE).length
            = q * BLOCK_SIZE + (x :: xs).length := by
          rw [List.length_drop]
          have := blockSize_pos
          simp only [List.length_cons] at hlen ⊢
          ring_nf
          omega
        have hsz : size + BLOCK_SIZE + ((x :: xs).drop BLOCK_SIZE).length
            = size + (x :: xs).length := by
          rw [List.length_drop]
          simp only [List.length_cons] at hlen ⊢
          omega
        rw [hoff, hsz]

theorem fileChunk_append_low (F buf : List Nat) (k : Nat)
    (h : k * BLOCK_SIZE + BLOCK_SIZE ≤ F.length) :
    fileChunk (F ++ buf) k = fileChunk F k := by
  unfold fileChunk
  rw [List.drop_append_of_le_length (by omega)]
  rw [List.take_append_of_le_length (by rw [List.length_drop]; omega)]

theorem fileChunk_append_high (F buf : List Nat) (k : Nat)
    (h : F.length ≤ k * BLOCK_SIZE) :
    fileChunk (F ++ buf) k
      = (buf.drop (k * BLOCK_SIZE - F.length)).take BLOCK_SIZE := by
  unfold fileChunk
  rw [List.drop_append_eq_append_drop, List.drop_eq_nil_of_le h,
    List.nil_append]

theorem append_congr {α : Type} {a b c d : List α} (h1 : a = b)
    (h2 : c = d) : a ++ c = b ++ d := by
  rw [h1, h2]

theorem fileChunk_append_mid (F buf : List Nat) (k : Nat)
    (h1 : k * BLOCK_SIZE ≤ F.length)
    (h2 : F.length ≤ k * BLOCK_SIZE + BLOCK_SIZE) :
    fileChunk (F ++ buf) k
      = fileChunk F k
        ++ buf.take (k * BLOCK_SIZE + BLOCK_SIZE - F.length) := by
  unfold fileChunk
  rw [List.drop_append_of_le_length h1, List.take_append_eq_append_take,
    List.length_drop]
  rw [show BLOCK_SIZE - (F.length - k * BLOCK_SIZE)
    = k * BLOCK_SIZE + BLOCK_SIZE - F.length from by omega]

theorem numBlocks_mul (q : Nat) (F : List Nat)
    (hL : F.length = q * BLOCK_SIZE) : numBlocks F = q := by
  unfold numBlocks
  rw [hL, ← Nat.add_zero (q * BLOCK_SIZE), divCeil_mul_add,
    divCeil_zero_block, Nat.add_zero]

/-- Appending `buf` to an exactly block-aligned file extends the canonical
rows with the new chunk rows. -/
theorem canonical_append_aligned (i : Nat) (F buf : List Nat)
    (c : Compression) (q : Nat) (hL : F.length = q * BLOCK_SIZE) :
    canonicalRows i (F ++ buf) c
      = canonicalRows i F c ++ newRows i q buf c := by
  unfold canonicalRows newRows
  rw [numBlocks_mul q F hL]
  rw [show numBlocks (F ++ buf) = q + divCeil buf.length BLOCK_SIZE from by
    unfold numBlocks
    rw [List.length_append, hL, divCeil_mul_add]]
  rw [List.range_add q (divCeil buf.length BLOCK_SIZE), List.map_append,
    List.map_map]
  refine append_congr ?_ ?_
  · refine List.map_congr_left ?_
    intro k hk
    have hkq : k < q := List.mem_range.mp hk
    rw [fileChunk_append_low F buf k (by
      rw [hL]
      have : k + 1 ≤ q := hkq
      calc k * BLOCK_SIZE + BLOCK_SIZE = (k + 1) * BLOCK_SIZE := by ring
        _ ≤ q * BLOCK_SIZE := Nat.mul_le_mul_right BLOCK_SIZE this)]
  · refine List.map_congr_left ?_
    intro j hj
    simp only [Function.comp_apply]
    rw [fileChunk_append_high F buf (q + j) (by
      rw [hL]
      exact Nat.mul_le_mul_right BLOCK_SIZE (Nat.le_add_right q j))]
    rw [show (q + j) * BLOCK_SIZE - F.length = j * BLOCK_SIZE from by
      rw [hL]
      have : (q + j) * BLOCK_SIZE = q * BLOCK_SIZE + j * BLOCK_SIZE := by
        ring
      omega]

/-- Appending `buf` to a file whose last block is partial rewrites that
block's canonical row (appending the absorbed prefix of `buf`) and adds
the canonical rows of the remainder. -/
theorem canonical_append_unaligned (i : Nat) (F buf : List Nat)
    (c : Compression) (hr : F.length % BLOCK_SIZE ≠ 0) :
    canonicalRows i (F ++ buf) c
      = (canonicalRows i F c).map (fun rr =>
          if rr.ino = i ∧ rr.bno = F.length / BLOCK_SIZE then
            { rr with
              data := (CompressedBlock.compress
                ⟨i, F.length / BLOCK_SIZE,
                  fileChunk F (F.length / BLOCK_SIZE)
                    ++ buf.take (min (BLOCK_SIZE - F.length % BLOCK_SIZE)
                        buf.length)⟩ c).data,
              compression := some c.tag }
          else rr)
        ++ newRows i (F.length / BLOCK_SIZE + 1)
            (buf.drop (min (BLOCK_SIZE - F.length % BLOCK_SIZE)
              buf.length)) c := by
  have hBS := blockSize_pos
  set q := F.length / BLOCK_SIZE with hq
  set r := F.length % BLOCK_SIZE with hrdef
  have hL : F.length = q * BLOCK_SIZE + r := by
    rw [hq, hrdef, Nat.mul_comm]
    exact (Nat.div_add_mod F.length BLOCK_SIZE).symm
  have hrlt : r < BLOCK_SIZE := Nat.mod_lt F.length hBS
  have hrpos : 0 < r := Nat.pos_of_ne_zero hr
  have hnF : numBlocks F = q + 1 := by
    unfold numBlocks
    rw [hL, divCeil_mul_add, divCeil_eq_one r hrpos (Nat.le_of_lt hrlt)]
  have hchunkq : fileChunk F q = F.drop (q * BLOCK_SIZE) := by
    unfold fileChunk
    exact List.take_of_length_le (by rw [List.length_drop]; omega)
  by_cases hbw : buf.length ≤ BLOCK_SIZE - r
  · -- the whole buffer fits in the partial block
    have hw : min (BLOCK_SIZE - r) buf.length = buf.length := by omega
    rw [hw, List.drop_length, newRows_nil, List.append_nil]
    unfold canonicalRows
    rw [hnF]
    rw [show numBlocks (F ++ buf) = q + 1 from by
      unfold numBlocks
      rw [List.length_append, hL,
        show q * BLOCK_SIZE + r + buf.length
          = q * BLOCK_SIZE + (r + buf.length) from by omega,
        divCeil_mul_add, divCeil_eq_one (r + buf.length) (by omega)
          (by omega)]]
    rw [List.map_map]
    refine List.map_congr_left ?_
    intro k hk
    have hk1 : k < q + 1 := List.mem_range.mp hk
    simp only [Function.comp_apply]
    split
    · rename_i hcond
      have hkq : k = q := hcond.2
      rw [hkq, fileChunk_append_mid F buf q (by omega) (by omega)]
      rw [show q * BLOCK_SIZE + BLOCK_SIZE - F.length
        = BLOCK_SIZE - r from by omega]
      rw [List.take_of_length_le (by omega)]
      rw [show buf.take buf.length = buf from List.take_length buf]
    · rename_i hcond
      have hkq : k ≠ q := fun hh => hcond ⟨trivial, hh⟩
      rw [fileChunk_append_low F buf k (by
        have : k + 1 ≤ q := by omega
        have h2 : (k + 1) * BLOCK_SIZE ≤ q * BLOCK_SIZE :=
          Nat.mul_le_mul_right BLOCK_SIZE this
        have h3 : k * BLOCK_SIZE + BLOCK_SIZE = (k + 1) * BLOCK_SIZE := by
          ring
        omega)]
  · -- the buffer spills past the partial block
    have hw : min (BLOCK_SIZE - r) buf.length = BLOCK_SIZE - r := by omega
    rw [hw]
    unfold canonicalRows newRows
    rw [hnF]
    rw [show numBlocks (F ++ buf) = (q + 1)
        + divCeil ((buf.drop (BLOCK_SIZE - r)).length) BLOCK_SIZE from by
      unfold numBlocks
      rw [List.length_append, hL, List.length_drop,
        show q * BLOCK_SIZE + r + buf.length
          = (q + 1) * BLOCK_SIZE + (buf.length - (BLOCK_SIZE - r)) from by
          have : (q + 1) * BLOCK_SIZE = q * BLOCK_SIZE + BLOCK_SIZE := by
            ring
          omega,
        divCeil_mul_add]]
    rw [List.range_add (q + 1)
      (divCeil ((buf.drop (BLOCK_SIZE - r)).length) BLOCK_SIZE),
      List.map_append, List.map_map, List.map_map]
    refine append_congr ?_ ?_
    · refine List.map_congr_left ?_
      intro k hk
      have hk1 : k < q + 1 := List.mem_range.mp hk
      simp only [Function.comp_apply]
      split
      · rename_i hcond
        have hkq : k = q := hcond.2
        rw [hkq, fileChunk_append_mid F buf q (by omega) (by omega)]
        rw [show q * BLOCK_SIZE + BLOCK_SIZE - F.length
          = BLOCK_SIZE - r from by omega]
      · rename_i hcond
        have hkq : k ≠ q := fun hh => hcond ⟨trivial, hh⟩
        rw [fileChunk_append_low F buf k (by
          have : k + 1 ≤ q := by omega
          have h2 : (k + 1) * BLOCK_SIZE ≤ q * BLOCK_SIZE :=
            Nat.mul_le_mul_right BLOCK_SIZE this
          have h3 : k * BLOCK_SIZE + BLOCK_SIZE = (k + 1) * BLOCK_SIZE := by
            ring
          omega)]
    · refine List.map_congr_left ?_
      intro j hj
      simp only [Function.comp_apply]
      rw [fileChunk_append_high F buf (q + 1 + j) (by
        have h2 : (q + 1) * BLOCK_SIZE ≤ (q + 1 + j) * BLOCK_SIZE :=
          Nat.mul_le_mul_right BLOCK_SIZE (Nat.le_add_right (q + 1) j)
        have h3 : (q + 1) * BLOCK_SIZE = q * BLOCK_SIZE + BLOCK_SIZE := by
          ring
        omega)]
      rw [show (q + 1 + j) * BLOCK_SIZE - F.length
        = BLOCK_SIZE - r + j * BLOCK_SIZE from by
        have h3 : (q + 1 + j) * BLOCK_SIZE
          = q * BLOCK_SIZE + BLOCK_SIZE + j * BLOCK_SIZE := by ring
        omega]
      rw [← List.drop_drop]

/-! ## C2 — flush: evaluation lemmas -/

theorem listResize_self (l : List Nat) : listResize l l.length = l := by
  unfold listResize
  rw [List.take_length, Nat.sub_self, List.replicate_zero, List.append_nil]

/-- `write_at` at an offset exactly at the end of the block's current data:
no byte is truncated or zero-padded, `min(BLOCK_SIZE - len, len(src))` bytes
of `src` are appended, and the size delta equals the written count. -/
theorem writeAt_exact (b : Block) (off : Nat) (src : List Nat)
    (h : off - b.startOffset = b.data.length) :
    b.writeAt off src
      = (⟨b.ino, b.bno,
          b.data ++ src.take (min (BLOCK_SIZE - b.data.length) src.length)⟩,
         min (BLOCK_SIZE - b.data.length) src.length,
         ((min (BLOCK_SIZE - b.data.length) src.length : Nat) : Int)) := by
  simp only [Block.writeAt, Block.consume, Block.available, h, listResize_self,
    listResize_length, List.length_append, List.length_take]
  rw [show min (min (BLOCK_SIZE - b.data.length) src.length) src.length
    = min (BLOCK_SIZE - b.data.length) src.length from by omega]
  rw [show ((b.data.length + min (BLOCK_SIZE - b.data.length) src.length
        : Nat) : Int) - (b.data.length : Int)
    = ((min (BLOCK_SIZE - b.data.length) src.length : Nat) : Int) from by
    push_cast
    ring]

theorem flushIterLoop_nil (s i off size : Nat) (d : List Nat)
    (m : List Block) :
    flushIterLoop s i [] off d size m = .ok (off, d, size, m) := rfl

theorem sortByBno_single (x : BlockRow) : sortByBno [x] = [x] := rfl

theorem filter_map_general {α β : Type} (l : List α) (f : α → β)
    (p : β → Bool) :
    (l.map f).filter p = (l.filter (fun x => p (f x))).map f := by
  induction l with
  | nil => rfl
  | cons x xs ih =>
    rw [List.map_cons, List.filter_cons, List.filter_cons]
    show (if p (f x) = true then f x :: (xs.map f).filter p
        else (xs.map f).filter p)
      = List.map f (if p (f x) = true
          then x :: xs.filter (fun y => p (f y))
          else xs.filter (fun y => p (f y)))
    cases hp : p (f x) with
    | true => rw [if_pos rfl, if_pos rfl, List.map_cons, ih]
    | false =>
      rw [if_neg (by simp), if_neg (by simp)]
      exact ih

theorem mem_newRows (i q : Nat) (d : List Nat) (c : Compression)
    (rr : BlockRow) (h : rr ∈ newRows i q d c) :
    rr.ino = i ∧ q ≤ rr.bno := by
  unfold newRows at h
  obtain ⟨j, hj, hrr⟩ := List.mem_map.mp h
  rw [← hrr]
  exact ⟨rfl, Nat.le_add_right q j⟩

theorem fileChunk_length (F : List Nat) (k : Nat) :
    (fileChunk F k).length = min BLOCK_SIZE (F.length - k * BLOCK_SIZE) := by
  unfold fileChunk
  rw [List.length_take, List.length_drop]

theorem selectBlocksFrom_canonical (db : DB) (i n : Nat) (F : List Nat)
    (c : Compression)
    (hrows : db.blocks.filter (fun r => decide (r.ino = i))
      = canonicalRows i F c) :
    selectBlocksFrom db i n
      = sortByBno ((canonicalRows i F c).filter
          (fun r => decide (n ≤ r.bno))) := by
  unfold selectBlocksFrom
  rw [filter_decide_and db.blocks (fun r => r.ino = i)
    (fun r => n ≤ r.bno), hrows]

theorem canonicalRows_filter_none (i n : Nat) (F : List Nat)
    (c : Compression) (h : numBlocks F ≤ n) :
    (canonicalRows i F c).filter (fun r => decide (n ≤ r.bno)) = [] := by
  refine filter_eq_nil_of_all _ _ ?_
  intro x hx
  have hb := (mem_canonicalRows i F c x hx).2
  exact decide_eq_false (by omega)

theorem canonicalRows_filter_last (i : Nat) (F : List Nat) (c : Compression)
    (q : Nat) (h : numBlocks F = q + 1) :
    (canonicalRows i F c).filter (fun r => decide (q ≤ r.bno))
      = [⟨i, q, (CompressedBlock.compress ⟨i, q, fileChunk F q⟩ c).data,
          some c.tag⟩] := by
  unfold canonicalRows
  rw [h, List.range_succ, List.map_append, List.filter_append]
  rw [filter_eq_nil_of_all _ _ (fun x hx => by
    obtain ⟨k, hk, hxk⟩ := List.mem_map.mp hx
    have hklt : k < q := List.mem_range.mp hk
    rw [← hxk]
    exact decide_eq_false (by
      show ¬ q ≤ k
      omega))]
  rw [List.map_cons, List.map_nil, List.nil_append, List.filter_cons]
  rw [if_pos (decide_eq_true (Nat.le_refl q)), List.filter_nil]

theorem lastBlockUpd_filter_eq (l : List BlockRow) (i : Nat)
    (F buf : List Nat) (c : Compression) :
    (l.map (lastBlockUpd i F buf c)).filter (fun r => decide (r.ino = i))
      = (l.filter (fun r => decide (r.ino = i))).map
          (lastBlockUpd i F buf c) := by
  refine filter_map_comm l _ _ ?_
  intro x
  unfold lastBlockUpd
  by_cases hx : x.ino = i ∧ x.bno = F.length / BLOCK_SIZE
  · rw [if_pos hx]
  · rw [if_neg hx]

theorem lastBlockUpd_filter_ne (l : List BlockRow) (i : Nat)
    (F buf : List Nat) (c : Compression) :
    (l.map (lastBlockUpd i F buf c)).filter (fun r => decide (¬ r.ino = i))
      = l.filter (fun r => decide (¬ r.ino = i)) := by
  rw [filter_map_comm l _ _ (fun x => by
    unfold lastBlockUpd
    by_cases hx : x.ino = i ∧ x.bno = F.length / BLOCK_SIZE
    · rw [if_pos hx]
    · rw [if_neg hx])]
  refine filter_map_id _ _ _ ?_
  intro x hx
  unfold lastBlockUpd
  rw [if_neg (fun hc => of_decide_eq_true hx hc.1)]

theorem rows_below_of_canonical (db : DB) (i nB : Nat) (F : List Nat)
    (c : Compression)
    (hrows : db.blocks.filter (fun r => decide (r.ino = i))
      = canonicalRows i F c)
    (h : numBlocks F ≤ nB) :
    ∀ rr ∈ db.blocks, rr.ino = i → rr.bno < nB := by
  intro rr hrr hri
  have hmem : rr ∈ db.blocks.filter (fun r => decide (r.ino = i)) :=
    List.mem_filter.mpr ⟨hrr, decide_eq_true hri⟩
  rw [hrows] at hmem
  have hlt := (mem_canonicalRows i F c rr hmem).2
  omega

theorem rows_below_lastBlockUpd (l : List BlockRow) (i nB : Nat)
    (F buf : List Nat) (c : Compression)
    (h : ∀ rr ∈ l, rr.ino = i → rr.bno < nB) :
    ∀ rr ∈ l.map (lastBlockUpd i F buf c), rr.ino = i → rr.bno < nB := by
  intro rr hrr hri
  obtain ⟨x, hx, hxr⟩ := List.mem_map.mp hrr
  unfold lastBlockUpd at hxr
  by_cases hc : x.ino = i ∧ x.bno = F.length / BLOCK_SIZE
  · rw [if_pos hc] at hxr
    rw [← hxr] at hri ⊢
    have hxi : x.ino = i := hri
    show x.bno < nB
    exact h x hx hxi
  · rw [if_neg hc] at hxr
    rw [← hxr] at hri ⊢
    exact h x hx hri

theorem inodeSetAttr_eval (ins : List InodeRow) (ds : List DirEntryRow)
    (bls : List BlockRow) (i : Nat) (f : InodeField) (v : Nat)
    (hany : ins.any (fun r => decide (r.ino = i)) = true) :
    inodeSetAttr (DB.mk ins ds bls) i f v
      = .ok (DB.mk (ins.map (fun rr => if rr.ino = i then
          rr.setField f v else rr)) ds bls) := by
  unfold inodeSetAttr
  rw [show (DB.mk ins ds bls).inodes = ins from rfl, hany, if_pos rfl]

theorem any_ino_map_setField (l : List InodeRow) (i : Nat) (f : InodeField)
    (v : Nat) :
    (l.map (fun rr => if rr.ino = i then rr.setField f v else rr)).any
        (fun r => decide (r.ino = i))
      = l.any (fun r => decide (r.ino = i)) := by
  induction l with
  | nil => rfl
  | cons x xs ih =>
    rw [List.map_cons, List.any_cons, List.any_cons, ih]
    by_cases hx : x.ino = i
    · rw [if_pos hx]
      rw [show decide ((x.setField f v).ino = i) = decide (x.ino = i) from by
        rw [setField_ino]]
    · rw [if_neg hx]

/-- `canonical_append_unaligned` restated through `lastBlockUpd`. -/
theorem canonical_append_upd (i : Nat) (F buf : List Nat)
    (c : Compression) (hr : F.length % BLOCK_SIZE ≠ 0) :
    canonicalRows i (F ++ buf) c
      = (canonicalRows i F c).map (lastBlockUpd i F buf c)
        ++ newRows i (F.length / BLOCK_SIZE + 1)
            (buf.drop (min (BLOCK_SIZE - F.length % BLOCK_SIZE)
              buf.length)) c := by
  rw [canonical_append_unaligned i F buf c hr]
  rfl

/-- `flush` on a handle whose cursor sits at the end of a block-aligned
dense file: no existing block is touched; the buffered bytes become fresh
blocks; size, blocks, cursor and buffer are updated. -/
theorem flush_append_aligned (db : DB) (i hsz fl : Nat) (F : List Nat)
    (b0 : Nat) (bs : List Nat) (c : Compression) (attr : InodeRow)
    (hlook : inodeLookup db i = .ok attr)
    (hsize : attr.size = F.length)
    (hrows : db.blocks.filter (fun r => decide (r.ino = i))
      = canonicalRows i F c)
    (hr : F.length % BLOCK_SIZE = 0) :
    FileHandle.flush ⟨i, hsz, fl, F.length, b0 :: bs, c⟩ db
      = .ok (⟨i, F.length + (b0 :: bs).length, fl,
            F.length + (b0 :: bs).length, [], c⟩,
          DB.mk
            ((db.inodes.map (fun rr => if rr.ino = i then
                rr.setField .size (F.length + (b0 :: bs).length) else rr)).map
              (fun rr => if rr.ino = i then
                rr.setField .blocks
                  (divCeil (F.length + (b0 :: bs).length) attr.blksize)
                else rr))
            db.dirEntries
            (db.blocks ++ newRows i (F.length / BLOCK_SIZE) (b0 :: bs) c)) := by
  have hBS := blockSize_pos
  have hF : F.length = F.length / BLOCK_SIZE * BLOCK_SIZE := by
    conv_lhs => rw [← Nat.div_add_mod F.length BLOCK_SIZE]
    rw [hr, Nat.add_zero, Nat.mul_comm]
  have hnF := numBlocks_mul (F.length / BLOCK_SIZE) F hF
  have hqB : Block.offsetToBno F.length = F.length / BLOCK_SIZE := rfl
  have hsel : selectBlocksFrom db i (F.length / BLOCK_SIZE) = [] := by
    rw [selectBlocksFrom_canonical db i (F.length / BLOCK_SIZE) F c hrows]
    rw [canonicalRows_filter_none i (F.length / BLOCK_SIZE) F c (by omega)]
    rfl
  have hloop : flushIterLoop (F.length / BLOCK_SIZE) i [] F.length (b0 :: bs)
      attr.size [] = .ok (F.length, b0 :: bs, attr.size, []) := rfl
  have hbelow : ∀ rr ∈ db.blocks, rr.ino = i →
      rr.bno < F.length / BLOCK_SIZE :=
    rows_below_of_canonical db i (F.length / BLOCK_SIZE) F c hrows (by omega)
  have hcreate0 := createLoop_spec i c (b0 :: bs).length (b0 :: bs)
    (Nat.le_refl _) db (F.length / BLOCK_SIZE) attr.size hbelow
  have hcreate : flushCreateLoopF (b0 :: bs).length db i F.length (b0 :: bs)
      attr.size c
    = .ok (DB.mk db.inodes db.dirEntries
        (db.blocks ++ newRows i (F.length / BLOCK_SIZE) (b0 :: bs) c),
      F.length + (b0 :: bs).length, F.length + (b0 :: bs).length) := by
    conv_lhs => rw [hF]
    rw [hcreate0, ← hF, hsize]
  have hany1 : db.inodes.any (fun r => decide (r.ino = i)) = true :=
    inodeLookup_any db i attr hlook
  have hany2 : (db.inodes.map (fun rr => if rr.ino = i then
      rr.setField .size (F.length + (b0 :: bs).length) else rr)).any
      (fun r => decide (r.ino = i)) = true := by
    rw [any_ino_map_setField]
    exact hany1
  have hset1 := inodeSetAttr_eval db.inodes db.dirEntries
    (db.blocks ++ newRows i (F.length / BLOCK_SIZE) (b0 :: bs) c) i .size
    (F.length + (b0 :: bs).length) hany1
  have hset2 := inodeSetAttr_eval
    (db.inodes.map (fun rr => if rr.ino = i then
      rr.setField .size (F.length + (b0 :: bs).length) else rr))
    db.dirEntries
    (db.blocks ++ newRows i (F.length / BLOCK_SIZE) (b0 :: bs) c) i .blocks
    (divCeil (F.length + (b0 :: bs).length) attr.blksize) hany2
  unfold FileHandle.flush
  rw [if_neg (by simp)]
  simp only [hlook, hqB, hsel, hloop, List.foldl_nil, hcreate, hset1, hset2]

/-- `flush` on a handle whose cursor sits at the end of a dense file with a
partially filled last block: that block's row is rewritten with the absorbed
prefix of the buffer, the remainder becomes fresh blocks, and size, blocks,
cursor and buffer are updated. -/
theorem flush_append_unaligned (db : DB) (i hsz fl : Nat) (F : List Nat)
    (b0 : Nat) (bs : List Nat) (c : Compression) (attr : InodeRow)
    (hrt : RoundTrip c)
    (hlook : inodeLookup db i = .ok attr)
    (hsize : attr.size = F.length)
    (hrows : db.blocks.filter (fun r => decide (r.ino = i))
      = canonicalRows i F c)
    (hbound : F.length + (b0 :: bs).length < 2 ^ 63)
    (hr : F.length % BLOCK_SIZE ≠ 0) :
    FileHandle.flush ⟨i, hsz, fl, F.length, b0 :: bs, c⟩ db
      = .ok (⟨i, F.length + (b0 :: bs).length, fl,
            F.length + (b0 :: bs).length, [], c⟩,
          DB.mk
            ((db.inodes.map (fun rr => if rr.ino = i then
                rr.setField .size (F.length + (b0 :: bs).length) else rr)).map
              (fun rr => if rr.ino = i then
                rr.setField .blocks
                  (divCeil (F.length + (b0 :: bs).length) attr.blksize)
                else rr))
            db.dirEntries
            (db.blocks.map (lastBlockUpd i F (b0 :: bs) c)
              ++ newRows i (F.length / BLOCK_SIZE + 1)
                ((b0 :: bs).drop
                  (min (BLOCK_SIZE - F.length % BLOCK_SIZE)
                    (b0 :: bs).length)) c)) := by
  have hBS := blockSize_pos
  have hrlt : F.length % BLOCK_SIZE < BLOCK_SIZE := Nat.mod_lt F.length hBS
  have hrpos : 0 < F.length % BLOCK_SIZE := Nat.pos_of_ne_zero hr
  have hL : F.length
      = F.length / BLOCK_SIZE * BLOCK_SIZE + F.length % BLOCK_SIZE := by
    rw [Nat.mul_comm]
    exact (Nat.div_add_mod F.length BLOCK_SIZE).symm
  have hnF : numBlocks F = F.length / BLOCK_SIZE + 1 := by
    unfold numBlocks
    conv_lhs => rw [show F.length
      = F.length / BLOCK_SIZE * BLOCK_SIZE + F.length % BLOCK_SIZE from by
        rw [Nat.mul_comm]
        exact (Nat.div_add_mod F.length BLOCK_SIZE).symm]
    rw [divCeil_mul_add, divCeil_eq_one _ hrpos (Nat.le_of_lt hrlt)]
  have hqB : Block.offsetToBno F.length = F.length / BLOCK_SIZE := rfl
  have hsel : selectBlocksFrom db i (F.length / BLOCK_SIZE)
      = [⟨i, F.length / BLOCK_SIZE,
          (CompressedBlock.compress
            ⟨i, F.length / BLOCK_SIZE, fileChunk F (F.length / BLOCK_SIZE)⟩
            c).data, some c.tag⟩] := by
    rw [selectBlocksFrom_canonical db i (F.length / BLOCK_SIZE) F c hrows]
    rw [canonicalRows_filter_last i F c (F.length / BLOCK_SIZE) hnF]
    rw [sortByBno_single]
  have hflen : (fileChunk F (F.length / BLOCK_SIZE)).length
      = F.length % BLOCK_SIZE := by
    rw [fileChunk_length]
    omega
  have hlenpos : 0 < (b0 :: bs).length := by simp
  have hwpos : (min (BLOCK_SIZE - F.length % BLOCK_SIZE)
      (b0 :: bs).length) > 0 := by omega
  have hloop : flushIterLoop (F.length / BLOCK_SIZE) i
      [⟨i, F.length / BLOCK_SIZE,
        (CompressedBlock.compress
          ⟨i, F.length / BLOCK_SIZE, fileChunk F (F.length / BLOCK_SIZE)⟩
          c).data, some c.tag⟩]
      F.length (b0 :: bs) attr.size []
    = .ok (F.length
          + min (BLOCK_SIZE - F.length % BLOCK_SIZE) (b0 :: bs).length,
        (b0 :: bs).drop
          (min (BLOCK_SIZE - F.length % BLOCK_SIZE) (b0 :: bs).length),
        attr.size
          + min (BLOCK_SIZE - F.length % BLOCK_SIZE) (b0 :: bs).length,
        [⟨i, F.length / BLOCK_SIZE,
          fileChunk F (F.length / BLOCK_SIZE)
            ++ (b0 :: bs).take
              (min (BLOCK_SIZE - F.length % BLOCK_SIZE)
                (b0 :: bs).length)⟩]) := by
    rw [flushIterLoop]
    simp only [tryFromColumn_tag, except_bind_ok,
      decompressB_roundtrip c hrt i (F.length / BLOCK_SIZE)
        (fileChunk F (F.length / BLOCK_SIZE)) (by rw [hflen]; omega),
      writeAt_exact
        ⟨i, F.length / BLOCK_SIZE, fileChunk F (F.length / BLOCK_SIZE)⟩
        F.length (b0 :: bs)
        (by
          show F.length - F.length / BLOCK_SIZE * BLOCK_SIZE
            = (fileChunk F (F.length / BLOCK_SIZE)).length
          rw [hflen]
          omega),
      hflen, List.nil_append]
    rw [if_pos hwpos]
    rw [flushIterLoop_nil, ite_self]
    rw [u64_add_small attr.size
      (min (BLOCK_SIZE - F.length % BLOCK_SIZE) (b0 :: bs).length)
      (by omega)]
  have hUPD : blockUpdate db
      ⟨i, F.length / BLOCK_SIZE,
        fileChunk F (F.length / BLOCK_SIZE)
          ++ (b0 :: bs).take
            (min (BLOCK_SIZE - F.length % BLOCK_SIZE) (b0 :: bs).length)⟩ c
    = DB.mk db.inodes db.dirEntries
        (db.blocks.map (lastBlockUpd i F (b0 :: bs) c)) := rfl
  have hbelow1 : ∀ rr ∈ (DB.mk db.inodes db.dirEntries
      (db.blocks.map (lastBlockUpd i F (b0 :: bs) c))).blocks,
      rr.ino = i → rr.bno < F.length / BLOCK_SIZE + 1 :=
    rows_below_lastBlockUpd db.blocks i (F.length / BLOCK_SIZE + 1) F
      (b0 :: bs) c
      (rows_below_of_canonical db i (F.length / BLOCK_SIZE + 1) F c hrows
        (by omega))
  have hcreate : flushCreateLoopF
      ((b0 :: bs).drop
        (min (BLOCK_SIZE - F.length % BLOCK_SIZE) (b0 :: bs).length)).length
      (DB.mk db.inodes db.dirEntries
        (db.blocks.map (lastBlockUpd i F (b0 :: bs) c))) i
      (F.length + min (BLOCK_SIZE - F.length % BLOCK_SIZE) (b0 :: bs).length)
      ((b0 :: bs).drop
        (min (BLOCK_SIZE - F.length % BLOCK_SIZE) (b0 :: bs).length))
      (attr.size + min (BLOCK_SIZE - F.length % BLOCK_SIZE) (b0 :: bs).length)
      c
    = .ok (DB.mk db.inodes db.dirEntries
        (db.blocks.map (lastBlockUpd i F (b0 :: bs) c)
          ++ newRows i (F.length / BLOCK_SIZE + 1)
            ((b0 :: bs).drop
              (min (BLOCK_SIZE - F.length % BLOCK_SIZE)
                (b0 :: bs).length)) c),
      F.length + (b0 :: bs).length, F.length + (b0 :: bs).length) := by
    by_cases hbw : (b0 :: bs).length ≤ BLOCK_SIZE - F.length % BLOCK_SIZE
    · rw [show min (BLOCK_SIZE - F.length % BLOCK_SIZE) (b0 :: bs).length
        = (b0 :: bs).length from by omega,
        List.drop_length, createLoop_nil, newRows_nil, List.append_nil,
        hsize]
    · rw [show min (BLOCK_SIZE - F.length % BLOCK_SIZE) (b0 :: bs).length
        = BLOCK_SIZE - F.length % BLOCK_SIZE from by omega]
      rw [show F.length + (BLOCK_SIZE - F.length % BLOCK_SIZE)
        = (F.length / BLOCK_SIZE + 1) * BLOCK_SIZE from by
        have h3 : (F.length / BLOCK_SIZE + 1) * BLOCK_SIZE
          = F.length / BLOCK_SIZE * BLOCK_SIZE + BLOCK_SIZE := by ring
        omega]
      rw [createLoop_spec i c
        ((b0 :: bs).drop (BLOCK_SIZE - F.length % BLOCK_SIZE)).length
        ((b0 :: bs).drop (BLOCK_SIZE - F.length % BLOCK_SIZE))
        (Nat.le_refl _)
        (DB.mk db.inodes db.dirEntries
          (db.blocks.map (lastBlockUpd i F (b0 :: bs) c)))
        (F.length / BLOCK_SIZE + 1)
        (attr.size + (BLOCK_SIZE - F.length % BLOCK_SIZE))
        hbelow1]
      rw [List.length_drop]
      rw [show (F.length / BLOCK_SIZE + 1) * BLOCK_SIZE
          + ((b0 :: bs).length - (BLOCK_SIZE - F.length % BLOCK_SIZE))
        = F.length + (b0 :: bs).length from by
        have h3 : (F.length / BLOCK_SIZE + 1) * BLOCK_SIZE
          = F.length / BLOCK_SIZE * BLOCK_SIZE + BLOCK_SIZE := by ring
        omega]
      rw [show attr.size + (BLOCK_SIZE - F.length % BLOCK_SIZE)
          + ((b0 :: bs).length - (BLOCK_SIZE - F.length % BLOCK_SIZE))
        = F.length + (b0 :: bs).length from by omega]
  have hany1 : db.inodes.any (fun r => decide (r.ino = i)) = true :=
    inodeLookup_any db i attr hlook
  have hany2 : (db.inodes.map (fun rr => if rr.ino = i then
      rr.setField .size (F.length + (b0 :: bs).length) else rr)).any
      (fun r => decide (r.ino = i)) = true := by
    rw [any_ino_map_setField]
    exact hany1
  have hset1 := inodeSetAttr_eval db.inodes db.dirEntries
    (db.blocks.map (lastBlockUpd i F (b0 :: bs) c)
      ++ newRows i (F.length / BLOCK_SIZE + 1)
        ((b0 :: bs).drop
          (min (BLOCK_SIZE - F.length % BLOCK_SIZE) (b0 :: bs).length)) c)
    i .size (F.length + (b0 :: bs).length) hany1
  have hset2 := inodeSetAttr_eval
    (db.inodes.map (fun rr => if rr.ino = i then
      rr.setField .size (F.length + (b0 :: bs).length) else rr))
    db.dirEntries
    (db.blocks.map (lastBlockUpd i F (b0 :: bs) c)
      ++ newRows i (F.length / BLOCK_SIZE + 1)
        ((b0 :: bs).drop
          (min (BLOCK_SIZE - F.length % BLOCK_SIZE) (b0 :: bs).length)) c)
    i .blocks (divCeil (F.length + (b0 :: bs).length) attr.blksize) hany2
  unfold FileHandle.flush
  rw [if_neg (by simp)]
  simp only [hlook, hqB, hsel, hloop, List.foldl_cons, List.foldl_nil, hUPD,
    hcreate, hset1, hset2]

/-- C2 (amended): for a handle whose write cursor sits at the end of a
densely stored file — `attr.size = len(F)`, the inode's block rows are
exactly the canonical compressed chunks of `F` — flushing a non-empty
buffer `buf` (with a round-tripping compression and `len(F) + len(buf)`
below `2^63`) succeeds and (1) the inode's block rows become exactly the
canonical compressed chunks of `F ++ buf`, so every buffered byte is
durable at its correct offset, (2) block rows of other inodes are
untouched, (3) dir entries are untouched, (4) the persisted inode row —
what a subsequent `getattr` reads — carries `size = len(F) + len(buf)`
and `blocks = div_ceil(size, blksize)`, and (5) the returned handle has
an empty buffer and its cursor advanced to the end of the flushed data.
The original claim's "any pre-existing block rows" is refuted by
`flush_sparse_counterexample`: with a cursor beyond EOF the buffered
bytes are stored at the wrong offsets. -/
theorem flush_append_spec (db : DB) (i hsz fl : Nat) (F buf : List Nat)
    (c : Compression) (attr : InodeRow)
    (hrt : RoundTrip c) (hbuf : buf ≠ [])
    (hlook : inodeLookup db i = .ok attr)
    (hsize : attr.size = F.length)
    (hrows : db.blocks.filter (fun r => decide (r.ino = i))
      = canonicalRows i F c)
    (hbound : F.length + buf.length < 2 ^ 63) :
    ∃ db' : DB,
      FileHandle.flush ⟨i, hsz, fl, F.length, buf, c⟩ db
        = .ok (⟨i, F.length + buf.length, fl, F.length + buf.length, [],
            c⟩, db')
      ∧ db'.blocks.filter (fun r => decide (r.ino = i))
          = canonicalRows i (F ++ buf) c
      ∧ db'.blocks.filter (fun r => decide (¬ r.ino = i))
          = db.blocks.filter (fun r => decide (¬ r.ino = i))
      ∧ db'.dirEntries = db.dirEntries
      ∧ inodeLookup db' i
          = .ok ((attr.setField .size (F.length + buf.length)).setField
              .blocks (divCeil (F.length + buf.length) attr.blksize))
      ∧ ((attr.setField .size (F.length + buf.length)).setField .blocks
            (divCeil (F.length + buf.length) attr.blksize)).size
          = F.length + buf.length := by
  cases buf with
  | nil => exact absurd rfl hbuf
  | cons b0 bs =>
    by_cases hal : F.length % BLOCK_SIZE = 0
    · have hF : F.length = F.length / BLOCK_SIZE * BLOCK_SIZE := by
        conv_lhs => rw [← Nat.div_add_mod F.length BLOCK_SIZE]
        rw [hal, Nat.add_zero, Nat.mul_comm]
      refine ⟨_, flush_append_aligned db i hsz fl F b0 bs c attr hlook hsize
        hrows hal, ?_, ?_, rfl, ?_, rfl⟩
      · show (db.blocks ++ newRows i (F.length / BLOCK_SIZE)
              (b0 :: bs) c).filter (fun r => decide (r.ino = i))
          = canonicalRows i (F ++ b0 :: bs) c
        rw [List.filter_append, hrows,
          filter_eq_self_of_all _ _ (fun x hx =>
            decide_eq_true (mem_newRows i _ _ c x hx).1),
          canonical_append_aligned i F (b0 :: bs) c (F.length / BLOCK_SIZE)
            hF]
      · show (db.blocks ++ newRows i (F.length / BLOCK_SIZE)
              (b0 :: bs) c).filter (fun r => decide (¬ r.ino = i))
          = db.blocks.filter (fun r => decide (¬ r.ino = i))
        rw [List.filter_append,
          filter_eq_nil_of_all (newRows i (F.length / BLOCK_SIZE)
            (b0 :: bs) c) _ (fun x hx =>
            decide_eq_false (fun hn => hn (mem_newRows i _ _ c x hx).1)),
          List.append_nil]
      · exact inodeLookup_map_setField
          (DB.mk (db.inodes.map (fun rr => if rr.ino = i then
              rr.setField .size (F.length + (b0 :: bs).length) else rr))
            db.dirEntries
            (db.blocks ++ newRows i (F.length / BLOCK_SIZE) (b0 :: bs) c))
          i (attr.setField .size (F.length + (b0 :: bs).length)) .blocks
          (divCeil (F.length + (b0 :: bs).length) attr.blksize)
          db.dirEntries
          (db.blocks ++ newRows i (F.length / BLOCK_SIZE) (b0 :: bs) c)
          (inodeLookup_map_setField db i attr .size
            (F.length + (b0 :: bs).length) db.dirEntries
            (db.blocks ++ newRows i (F.length / BLOCK_SIZE) (b0 :: bs) c)
            hlook)
    · refine ⟨_, flush_append_unaligned db i hsz fl F b0 bs c attr hrt hlook
        hsize hrows hbound hal, ?_, ?_, rfl, ?_, rfl⟩
      · show (db.blocks.map (lastBlockUpd i F (b0 :: bs) c)
              ++ newRows i (F.length / BLOCK_SIZE + 1)
                ((b0 :: bs).drop
                  (min (BLOCK_SIZE - F.length % BLOCK_SIZE)
                    (b0 :: bs).length)) c).filter
            (fun r => decide (r.ino = i))
          = canonicalRows i (F ++ b0 :: bs) c
        rw [List.filter_append, lastBlockUpd_filter_eq, hrows,
          filter_eq_self_of_all _ _ (fun x hx =>
            decide_eq_true (mem_newRows i _ _ c x hx).1),
          canonical_append_upd i F (b0 :: bs) c hal]
      · show (db.blocks.map (lastBlockUpd i F (b0 :: bs) c)
              ++ newRows i (F.length / BLOCK_SIZE + 1)
                ((b0 :: bs).drop
                  (min (BLOCK_SIZE - F.length % BLOCK_SIZE)
                    (b0 :: bs).length)) c).filter
            (fun r => decide (¬ r.ino = i))
          = db.blocks.filter (fun r => decide (¬ r.ino = i))
        rw [List.filter_append, lastBlockUpd_filter_ne,
          filter_eq_nil_of_all (newRows i (F.length / BLOCK_SIZE + 1)
            ((b0 :: bs).drop (min (BLOCK_SIZE - F.length % BLOCK_SIZE)
              (b0 :: bs).length)) c) _ (fun x hx =>
            decide_eq_false (fun hn => hn (mem_newRows i _ _ c x hx).1)),
          List.append_nil]
      · exact inodeLookup_map_setField
          (DB.mk (db.inodes.map (fun rr => if rr.ino = i then
              rr.setField .size (F.length + (b0 :: bs).length) else rr))
            db.dirEntries
            (db.blocks.map (lastBlockUpd i F (b0 :: bs) c)
              ++ newRows i (F.length / BLOCK_SIZE + 1)
                ((b0 :: bs).drop
                  (min (BLOCK_SIZE - F.length % BLOCK_SIZE)
                    (b0 :: bs).length)) c))
          i (attr.setField .size (F.length + (b0 :: bs).length)) .blocks
          (divCeil (F.length + (b0 :: bs).length) attr.blksize)
          db.dirEntries
          (db.blocks.map (lastBlockUpd i F (b0 :: bs) c)
            ++ newRows i (F.length / BLOCK_SIZE + 1)
              ((b0 :: bs).drop
                (min (BLOCK_SIZE - F.length % BLOCK_SIZE)
                  (b0 :: bs).length)) c)
          (inodeLookup_map_setField db i attr .size
            (F.length + (b0 :: bs).length) db.dirEntries
            (db.blocks.map (lastBlockUpd i F (b0 :: bs) c)
              ++ newRows i (F.length / BLOCK_SIZE + 1)
                ((b0 :: bs).drop
                  (min (BLOCK_SIZE - F.length % BLOCK_SIZE)
                    (b0 :: bs).length)) c)
            hlook)

/-- C2 counterexample (sparse flush): a handle with write cursor 10 on an
empty file buffers the byte 9 destined for absolute offset 10; `flush`
succeeds but stores it at relative offset 0 of block 0 — `block::create`
runs `consume`, which appends at the block start regardless of the
requested offset — and persists `size = 1`.  The stored block holds the
byte at absolute offset 0 and has no byte at the correct relative offset
10, refuting "all buffered bytes become durable at their correct byte
offsets" for arbitrary pre-states. -/
theorem flush_sparse_counterexample :
    FileHandle.flush ⟨7, 0, 0, 10, [9], .none⟩
        (DB.mk [sampleInode 7 0 1] [] [])
      = .ok (⟨7, 1, 0, 11, [], .none⟩,
          DB.mk [((sampleInode 7 0 1).setField .size 1).setField .blocks 1]
            [] [⟨7, 0, [9], some 0⟩])
    ∧ Block.offsetToBno 10 = 0
    ∧ ([9] : List Nat).get? (10 - 0 * BLOCK_SIZE) = Option.none
    ∧ ([9] : List Nat).get? 0 = some 9 := by
  refine ⟨?_, by decide, by decide, by decide⟩
  decide

/-- C2 witness: `flush_append_spec` at a two-byte file `[1, 2]` stored
uncompressed in block 0, appending the byte `[3]`. -/
theorem flush_append_spec_witness :
    ∃ db' : DB,
      FileHandle.flush ⟨9, 0, 0, [1, 2].length, [3], .none⟩
          (DB.mk [sampleInode 9 2 1] [] [⟨9, 0, [1, 2], some 0⟩])
        = .ok (⟨9, [1, 2].length + [3].length, 0,
            [1, 2].length + [3].length, [], .none⟩, db')
      ∧ db'.blocks.filter (fun r => decide (r.ino = 9))
          = canonicalRows 9 ([1, 2] ++ [3]) .none
      ∧ db'.blocks.filter (fun r => decide (¬ r.ino = 9))
          = (DB.mk [sampleInode 9 2 1] [] [⟨9, 0, [1, 2],
              some 0⟩]).blocks.filter (fun r => decide (¬ r.ino = 9))
      ∧ db'.dirEntries
          = (DB.mk [sampleInode 9 2 1] [] [⟨9, 0, [1, 2],
              some 0⟩]).dirEntries
      ∧ inodeLookup db' 9
          = .ok (((sampleInode 9 2 1).setField .size
              ([1, 2].length + [3].length)).setField .blocks
                (divCeil ([1, 2].length + [3].length)
                  (sampleInode 9 2 1).blksize))
      ∧ (((sampleInode 9 2 1).setField .size
            ([1, 2].length + [3].length)).setField .blocks
              (divCeil ([1, 2].length + [3].length)
                (sampleInode 9 2 1).blksize)).size
          = [1, 2].length + [3].length :=
  flush_append_spec (DB.mk [sampleInode 9 2 1] [] [⟨9, 0, [1, 2], some 0⟩])
    9 0 0 [1, 2] [3] .none (sampleInode 9 2 1) roundTrip_none (by decide)
    (by decide) (by decide) (by decide) (by decide)

end Nightshift
